import Mathlib

/-!
Verification development for the zerogo peer-to-peer virtual Layer-2 overlay.

The Go sources are shallowly embedded: byte strings are `List Nat` (each element
a byte value), machine words are `Nat` reduced modulo `2 ^ w` wherever Go wraps,
Go maps become association lists with a deterministic iteration order, and every
stateful method becomes a pure function from the old state to the new state plus
its outputs.  The cryptographic primitives the agent calls
(BLAKE2s, ChaCha20, Poly1305 from golang.org/x/crypto) are implemented
concretely below, following their reference specifications, and are checked
against published test vectors.
-/

namespace ZeroGo

set_option maxRecDepth 100000

/-! ## Definitions -/

/-- Little-endian serialization of `x` into `n` bytes (Go `binary.LittleEndian.PutUintN`).
High bits beyond the `n` bytes are dropped, as in Go. -/
def toLE : Nat → Nat → List Nat
  | 0, _ => []
  | n + 1, x => x % 256 :: toLE n (x / 256)

/-- Little-endian deserialization of a byte list (Go `binary.LittleEndian.UintN`). -/
def fromLE : List Nat → Nat
  | [] => 0
  | b :: rest => b + 256 * fromLE rest

/-- Big-endian 16-bit read of two bytes (Go `binary.BigEndian.Uint16`). -/
def fromBE2 (hi lo : Nat) : Nat := hi * 256 + lo

/-- Go's `copy(dst, src)` into a zero-filled `n`-byte array: take at most `n`
bytes of `src` and pad with zero bytes to exactly `n`. -/
def fix (n : Nat) (l : List Nat) : List Nat :=
  l.take n ++ List.replicate (n - l.length) 0

/-- Byte-wise XOR of two equal-length byte strings. -/
def xorBytes (a b : List Nat) : List Nat := List.zipWith (fun x y => x ^^^ y) a b

/-- Addition modulo `2 ^ 32` (Go `uint32` addition). -/
def add32 (a b : Nat) : Nat := (a + b) % 4294967296

/-- Right rotation of a 32-bit word by `n` bits. -/
def rotr32 (x n : Nat) : Nat := (x % 2 ^ n) * 2 ^ (32 - n) + x / 2 ^ n

/-- Left rotation of a 32-bit word by `n` bits (Go `bits.RotateLeft32`). -/
def rotl32 (x n : Nat) : Nat := (x % 2 ^ (32 - n)) * 2 ^ n + x / 2 ^ (32 - n)

/-! ## BLAKE2s-256 (golang.org/x/crypto/blake2s)

Implemented per RFC 7693, with optional keying as used by `blake2s.New256(key)`.
State vectors are `List Nat` of eight or sixteen 32-bit words. -/

def blakeIV : List Nat :=
  [0x6A09E667, 0xBB67AE85, 0x3C6EF372, 0xA54FF53A,
   0x510E527F, 0x9B05688C, 0x1F83D9AB, 0x5BE0CD19]

/-- The ten BLAKE2s message schedules. -/
def blakeSigma : List (List Nat) :=
  [[0, 1, 2, 3, 4, 5, 6, 7, 8, 9, 10, 11, 12, 13, 14, 15],
   [14, 10, 4, 8, 9, 15, 13, 6, 1, 12, 0, 2, 11, 7, 5, 3],
   [11, 8, 12, 0, 5, 2, 15, 13, 10, 14, 3, 6, 7, 1, 9, 4],
   [7, 9, 3, 1, 13, 12, 11, 14, 2, 6, 5, 10, 4, 0, 15, 8],
   [9, 0, 5, 7, 2, 4, 10, 15, 14, 1, 11, 12, 6, 8, 3, 13],
   [2, 12, 6, 10, 0, 11, 8, 3, 4, 13, 7, 5, 15, 14, 1, 9],
   [12, 5, 1, 15, 14, 13, 4, 10, 0, 7, 6, 3, 9, 2, 8, 11],
   [13, 11, 7, 14, 12, 1, 3, 9, 5, 0, 15, 4, 8, 6, 2, 10],
   [6, 15, 14, 9, 11, 3, 0, 8, 12, 2, 13, 7, 1, 4, 10, 5],
   [10, 2, 8, 4, 7, 6, 1, 5, 15, 11, 9, 14, 3, 12, 13, 0]]

/-- The BLAKE2s G mixing function acting on positions `a b c d` of the sixteen-word
work vector `v`, mixing in message words `x` and `y`. -/
def blakeG (v : List Nat) (a b c d x y : Nat) : List Nat :=
  let va := add32 (add32 (v.getD a 0) (v.getD b 0)) x
  let vd := rotr32 ((v.getD d 0) ^^^ va) 16
  let vc := add32 (v.getD c 0) vd
  let vb := rotr32 ((v.getD b 0) ^^^ vc) 12
  let va2 := add32 (add32 va vb) y
  let vd2 := rotr32 (vd ^^^ va2) 8
  let vc2 := add32 vc vd2
  let vb2 := rotr32 (vb ^^^ vc2) 7
  (((v.set a va2).set b vb2).set c vc2).set d vd2

/-- One BLAKE2s round: eight G applications (four columns, four diagonals) with
message words selected through schedule `s`. -/
def blakeRound (m : List Nat) (v : List Nat) (s : List Nat) : List Nat :=
  let x := fun i => m.getD (s.getD i 0) 0
  let v1 := blakeG v 0 4 8 12 (x 0) (x 1)
  let v2 := blakeG v1 1 5 9 13 (x 2) (x 3)
  let v3 := blakeG v2 2 6 10 14 (x 4) (x 5)
  let v4 := blakeG v3 3 7 11 15 (x 6) (x 7)
  let v5 := blakeG v4 0 5 10 15 (x 8) (x 9)
  let v6 := blakeG v5 1 6 11 12 (x 10) (x 11)
  let v7 := blakeG v6 2 7 8 13 (x 12) (x 13)
  blakeG v7 3 4 9 14 (x 14) (x 15)

/-- BLAKE2s compression: mixes a 64-byte block into the eight-word state `h`,
with byte counter `t` and finalization flag `final`. -/
def blakeCompress (h : List Nat) (block : List Nat) (t : Nat) (final : Bool) : List Nat :=
  let m := (List.range 16).map (fun i => fromLE ((block.drop (4 * i)).take 4))
  let v0 := h ++ blakeIV
  let v1 := (v0.set 12 ((v0.getD 12 0) ^^^ (t % 4294967296))).set 13
    ((v0.getD 13 0) ^^^ (t / 4294967296 % 4294967296))
  let v2 := if final then v1.set 14 ((v1.getD 14 0) ^^^ 0xFFFFFFFF) else v1
  let w := blakeSigma.foldl (blakeRound m) v2
  (List.range 8).map (fun i => (h.getD i 0) ^^^ (w.getD i 0) ^^^ (w.getD (i + 8) 0))

/-- Processes the message block chain.  All blocks but the last are compressed
with `final := false`; the last (padded to 64 bytes) with `final := true`.
`fuel` bounds recursion and is always supplied `≥ msg.length`, which suffices. -/
def blakeChain (fuel : Nat) (h : List Nat) (t : Nat) (msg : List Nat) : List Nat :=
  match fuel with
  | 0 => blakeCompress h (fix 64 msg) (t + msg.length) true
  | fuel + 1 =>
    if msg.length ≤ 64 then blakeCompress h (fix 64 msg) (t + msg.length) true
    else blakeChain fuel (blakeCompress h (msg.take 64) (t + 64) false) (t + 64) (msg.drop 64)

/-- Initial state: the IV with the parameter block (digest length 32, key length)
folded into the first word. -/
def blakeInitWords (keyLen : Nat) : List Nat :=
  ((blakeIV.getD 0 0) ^^^ (0x01010000 ^^^ (keyLen % 256 * 256) ^^^ 32)) :: blakeIV.drop 1

/-- Serializes the eight-word state to the 32-byte digest. -/
def blakeOut (h : List Nat) : List Nat :=
  toLE 4 (h.getD 0 0) ++ toLE 4 (h.getD 1 0) ++ toLE 4 (h.getD 2 0) ++ toLE 4 (h.getD 3 0) ++
  toLE 4 (h.getD 4 0) ++ toLE 4 (h.getD 5 0) ++ toLE 4 (h.getD 6 0) ++ toLE 4 (h.getD 7 0)

/-- BLAKE2s-256 with optional key (`key = []` gives the plain hash,
`blake2s.Sum256`; a nonempty key of at most 32 bytes gives `blake2s.New256(key)`,
which prepends a zero-padded 64-byte key block). -/
def blake2sHash (key msg : List Nat) : List Nat :=
  let full := if key.length = 0 then msg else fix 64 key ++ msg
  blakeOut (blakeChain (full.length + 1) (blakeInitWords key.length) 0 full)

/-- One ChaCha quarter round on positions `a b c d` of the sixteen-word state. -/
def chachaQR (v : List Nat) (a b c d : Nat) : List Nat :=
  let va := add32 (v.getD a 0) (v.getD b 0)
  let vd := rotl32 ((v.getD d 0) ^^^ va) 16
  let vc := add32 (v.getD c 0) vd
  let vb := rotl32 ((v.getD b 0) ^^^ vc) 12
  let va2 := add32 va vb
  let vd2 := rotl32 (vd ^^^ va2) 8
  let vc2 := add32 vc vd2
  let vb2 := rotl32 (vb ^^^ vc2) 7
  (((v.set a va2).set b vb2).set c vc2).set d vd2

/-- A ChaCha double round: four column rounds then four diagonal rounds. -/
def chachaDoubleRound (v : List Nat) : List Nat :=
  let c1 := chachaQR v 0 4 8 12
  let c2 := chachaQR c1 1 5 9 13
  let c3 := chachaQR c2 2 6 10 14
  let c4 := chachaQR c3 3 7 11 15
  let d1 := chachaQR c4 0 5 10 15
  let d2 := chachaQR d1 1 6 11 12
  let d3 := chachaQR d2 2 7 8 13
  chachaQR d3 3 4 9 14

/-- Initial ChaCha20 state: constants, 8 key words, 32-bit block counter, 3 nonce
words, all little-endian. -/
def chachaInit (key nonce : List Nat) (counter : Nat) : List Nat :=
  [0x61707865, 0x3320646e, 0x79622d32, 0x6b206574] ++
  (List.range 8).map (fun i => fromLE ((key.drop (4 * i)).take 4)) ++
  [counter % 4294967296] ++
  (List.range 3).map (fun i => fromLE ((nonce.drop (4 * i)).take 4))

/-- Serializes a sixteen-word state to 64 bytes, little-endian per word. -/
def chachaSerial (v : List Nat) : List Nat :=
  toLE 4 (v.getD 0 0) ++ toLE 4 (v.getD 1 0) ++ toLE 4 (v.getD 2 0) ++ toLE 4 (v.getD 3 0) ++
  toLE 4 (v.getD 4 0) ++ toLE 4 (v.getD 5 0) ++ toLE 4 (v.getD 6 0) ++ toLE 4 (v.getD 7 0) ++
  toLE 4 (v.getD 8 0) ++ toLE 4 (v.getD 9 0) ++ toLE 4 (v.getD 10 0) ++ toLE 4 (v.getD 11 0) ++
  toLE 4 (v.getD 12 0) ++ toLE 4 (v.getD 13 0) ++ toLE 4 (v.getD 14 0) ++ toLE 4 (v.getD 15 0)

/-- The 64-byte ChaCha20 keystream block for a key, nonce and block counter:
twenty rounds, then word-wise addition of the initial state. -/
def chachaBlockBytes (key nonce : List Nat) (counter : Nat) : List Nat :=
  let st := chachaInit key nonce counter
  let w := (List.range 10).foldl (fun v _ => chachaDoubleRound v) st
  chachaSerial ((List.range 16).map (fun i => add32 (st.getD i 0) (w.getD i 0)))

/-- Concatenation of `n` consecutive keystream blocks starting at `counter`. -/
def chachaBlocks (n : Nat) (key nonce : List Nat) (counter : Nat) : List Nat :=
  match n with
  | 0 => []
  | n + 1 => chachaBlockBytes key nonce counter ++ chachaBlocks n key nonce (counter + 1)

/-- The first `len` keystream bytes starting at block `counter`. -/
def chachaKeystream (len : Nat) (key nonce : List Nat) (counter : Nat) : List Nat :=
  (chachaBlocks ((len + 63) / 64) key nonce counter).take len

/-- The Poly1305 prime `2 ^ 130 - 5`. -/
def polyP : Nat := 2 ^ 130 - 5

/-- Accumulates 16-byte chunks of `msg`: each chunk, read little-endian with a
high `1` byte appended, is added to the accumulator which is then multiplied by
`r` modulo `polyP`.  `fuel ≥` the number of chunks always suffices. -/
def polyChunks (fuel : Nat) (r acc : Nat) (msg : List Nat) : Nat :=
  match fuel, msg with
  | _, [] => acc
  | 0, _ => acc
  | fuel + 1, msg =>
    polyChunks fuel r
      ((acc + (fromLE (msg.take 16) + 2 ^ (8 * (msg.take 16).length))) * r % polyP)
      (msg.drop 16)

/-- The Poly1305 tag of `msg` under a 32-byte one-time key: the low 16 bytes,
clamped, give the evaluation point `r`; the high 16 bytes the final addend `s`;
the tag is the accumulator plus `s`, truncated to 128 bits. -/
def poly1305Tag (key msg : List Nat) : List Nat :=
  let r := fromLE (key.take 16) &&& 0x0ffffffc0ffffffc0ffffffc0fffffff
  let s := fromLE ((key.drop 16).take 16)
  toLE 16 ((polyChunks (msg.length + 1) r 0 msg + s) % 2 ^ 128)

/-- Zero padding of a byte string to a multiple of 16 bytes. -/
def pad16 (l : List Nat) : List Nat := List.replicate ((16 - l.length % 16) % 16) 0

/-- The byte string the Poly1305 tag is computed over: AAD and ciphertext, each
zero-padded to 16 bytes, followed by their little-endian 64-bit lengths. -/
def macData (aad ct : List Nat) : List Nat :=
  aad ++ pad16 aad ++ ct ++ pad16 ct ++ toLE 8 aad.length ++ toLE 8 ct.length

/-- AEAD seal: ciphertext is the plaintext XOR keystream (blocks from counter 1);
the Poly1305 key is the first 32 bytes of block 0; the 16-byte tag is appended. -/
def aeadSeal (key nonce aad plaintext : List Nat) : List Nat :=
  let polyKey := (chachaBlockBytes key nonce 0).take 32
  let ct := xorBytes plaintext (chachaKeystream plaintext.length key nonce 1)
  ct ++ poly1305Tag polyKey (macData aad ct)

/-- AEAD open: recomputes the tag over the received ciphertext body and compares;
on a match, decrypts by XOR with the same keystream.  Returns `none` exactly when
the input is shorter than a tag or the tag does not verify. -/
def aeadOpen (key nonce aad data : List Nat) : Option (List Nat) :=
  if data.length < 16 then none
  else
    let body := data.take (data.length - 16)
    let tag := data.drop (data.length - 16)
    let polyKey := (chachaBlockBytes key nonce 0).take 32
    if poly1305Tag polyKey (macData aad body) = tag then
      some (xorBytes body (chachaKeystream body.length key nonce 1))
    else none

/-- `hmacBlake2s` from vl1/peer.go: a keyed BLAKE2s when the key fits in 32
bytes, otherwise the key is hashed first.  (The library's error fallback for
short keys is unreachable: `blake2s.New256` only rejects keys over 32 bytes.) -/
def hmacBlake2s (key data : List Nat) : List Nat :=
  if key.length ≤ 32 then blake2sHash key data
  else blake2sHash (blake2sHash [] key) data

/-- The byte-wise comparison loop of `DeriveKeysFromPSK`: `localIsSmaller` is
true iff the first differing byte of the two equal-length keys is smaller on the
local side; equal keys compare false. -/
def lexSmaller : List Nat → List Nat → Bool
  | a :: as, b :: bs => if a < b then true else if b < a then false else lexSmaller as bs
  | _, _ => false

/-- The ASCII bytes of "zerogo-psk-key-1". -/
def pskLabel1 : List Nat :=
  [122, 101, 114, 111, 103, 111, 45, 112, 115, 107, 45, 107, 101, 121, 45, 49]

/-- The ASCII bytes of "zerogo-psk-key-2". -/
def pskLabel2 : List Nat :=
  [122, 101, 114, 111, 103, 111, 45, 112, 115, 107, 45, 107, 101, 121, 45, 50]

/-- `DeriveKeysFromPSK` from vl1/peer.go: master key from the PSK and the two
public keys sorted lexicographically; two subkeys labelled 1 and 2; the side
with the smaller public key sends with subkey 1 and receives with subkey 2. -/
def DeriveKeysFromPSK (psk localPub remotePub : List Nat) : List Nat × List Nat :=
  let localIsSmaller := lexSmaller localPub remotePub
  let master :=
    if localIsSmaller then blake2sHash [] (psk ++ localPub ++ remotePub)
    else blake2sHash [] (psk ++ remotePub ++ localPub)
  let k1 := hmacBlake2s master pskLabel1
  let k2 := hmacBlake2s master pskLabel2
  if localIsSmaller then (k1, k2) else (k2, k1)

/-- The post-handshake transport cipher: two directional 32-byte keys, the
monotone send counter and the receive high-water-mark (both Go `uint64`). -/
structure NoiseCipher where
  sendKey : List Nat
  recvKey : List Nat
  sendNonce : Nat
  recvNonce : Nat
deriving DecidableEq

/-- `NewNoiseCipher`: both counters start at zero. -/
def NewNoiseCipher (sendKey recvKey : List Nat) : NoiseCipher :=
  ⟨sendKey, recvKey, 0, 0⟩

/-- The 12-byte AEAD nonce: four zero bytes then the little-endian counter. -/
def nonceOf (counter : Nat) : List Nat := [0, 0, 0, 0] ++ toLE 8 counter

/-- `NoiseCipher.Encrypt`: draws the next send counter (atomic add with `uint64`
wraparound; the value used is the pre-increment counter), prepends its 8
little-endian bytes, and appends the AEAD sealing of the plaintext with empty
AAD.  `none` models the `chacha20poly1305.New` key-size error, unreachable for
the `[32]byte` keys the Go type carries. -/
def NoiseCipher.Encrypt (c : NoiseCipher) (plaintext : List Nat) :
    Option (NoiseCipher × List Nat) :=
  if c.sendKey.length = 32 then
    let newNonce := (c.sendNonce + 1) % 2 ^ 64
    let counter := (newNonce + (2 ^ 64 - 1)) % 2 ^ 64
    some ({ c with sendNonce := newNonce },
      toLE 8 counter ++ aeadSeal c.sendKey (nonceOf counter) [] plaintext)
  else none

/-- `NoiseCipher.Decrypt`: rejects inputs shorter than counter plus tag, reads
the 8-byte little-endian counter, rebuilds the nonce and opens the AEAD.  On
success the receive high-water-mark advances to `counter + 1` (with `uint64`
wraparound) whenever `counter` is at or above it. -/
def NoiseCipher.Decrypt (c : NoiseCipher) (data : List Nat) :
    Option (List Nat) × NoiseCipher :=
  if data.length < 8 + 16 then (none, c)
  else if c.recvKey.length = 32 then
    let counter := fromLE (data.take 8)
    match aeadOpen c.recvKey (nonceOf counter) [] (data.drop 8) with
    | none => (none, c)
    | some plaintext =>
      (some plaintext,
        { c with recvNonce :=
            if c.recvNonce ≤ counter then (counter + 1) % 2 ^ 64 else c.recvNonce })
  else (none, c)

section AssocList

variable {κ β : Type} [DecidableEq κ]

/-- Map lookup. -/
def lookupA (k : κ) : List (κ × β) → Option β
  | [] => none
  | p :: rest => if p.1 = k then some p.2 else lookupA k rest

/-- Map assignment `m[k] = v`: replaces the binding if present, else appends. -/
def upsertA (k : κ) (v : β) (l : List (κ × β)) : List (κ × β) :=
  match lookupA k l with
  | some _ => l.map (fun p => if p.1 = k then (k, v) else p)
  | none => l ++ [(k, v)]

/-- Map deletion `delete(m, k)`: removes the binding for `k` if present. -/
def eraseA (k : κ) : List (κ × β) → List (κ × β)
  | [] => []
  | p :: rest => if p.1 = k then rest else p :: eraseA k rest

/-- The `for k, v := range m` minimum-search loop shared by the MAC-table and
ARP-cache eviction: returns a binding whose measure `f` is strictly minimal
(the earliest such binding in iteration order). -/
def findOldestBy (f : β → Nat) (l : List (κ × β)) : Option (κ × β) :=
  l.foldl
    (fun acc p =>
      match acc with
      | none => some p
      | some q => if f p.2 < f q.2 then some p else some q)
    none

end AssocList

/-- `EthernetHeaderSize` from the vl2 frame codec. -/
def EthernetHeaderSize : Nat := 14

/-- A parsed Ethernet frame: destination and source MAC, ethertype, payload and
the raw bytes. -/
structure EthernetFrame where
  DstMAC : List Nat
  SrcMAC : List Nat
  EtherType : Nat
  Payload : List Nat
  Raw : List Nat
deriving DecidableEq

/-- `ParseEthernetFrame`: rejects frames shorter than 14 bytes, else slices the
fixed header fields. -/
def ParseEthernetFrame (data : List Nat) : Option EthernetFrame :=
  if data.length < EthernetHeaderSize then none
  else some
    { DstMAC := data.take 6
      SrcMAC := (data.drop 6).take 6
      EtherType := fromBE2 (data.getD 12 0) (data.getD 13 0)
      Payload := data.drop EthernetHeaderSize
      Raw := data }

/-- `EthernetFrame.IsBroadcast`: all six destination bytes are `0xff`. -/
def EthernetFrame.IsBroadcast (f : EthernetFrame) : Bool :=
  (f.DstMAC.getD 0 0 == 255) && (f.DstMAC.getD 1 0 == 255) && (f.DstMAC.getD 2 0 == 255) &&
  (f.DstMAC.getD 3 0 == 255) && (f.DstMAC.getD 4 0 == 255) && (f.DstMAC.getD 5 0 == 255)

/-- `EthernetFrame.IsMulticast`: the low bit of the first destination byte. -/
def EthernetFrame.IsMulticast (f : EthernetFrame) : Bool :=
  (f.DstMAC.getD 0 0) &&& 1 != 0

/-- `AddressFromPublicKey`: the first five bytes of `BLAKE2s(pubkey)`, with a
zero first byte forced to 1. -/
def AddressFromPublicKey (pubKey : List Nat) : List Nat :=
  let hash := blake2sHash [] pubKey
  let addr := fix 5 (hash.take 5)
  if addr.getD 0 0 = 0 then addr.set 0 1 else addr

/-- `MACTableMaxSize` from switch.go. -/
def MACTableMaxSize : Nat := 4096

/-- `MACTableExpiry` (5 minutes), in nanoseconds as Go's `time.Duration`. -/
def MACTableExpiry : Nat := 300000000000

/-- A MAC table entry: owning peer address (all-zero for local), last-seen
instant, and the local flag. -/
structure MACEntry where
  PeerAddr : List Nat
  LastSeen : Nat
  IsLocal : Bool
deriving DecidableEq

/-- The per-network MAC table, keyed by the 6-byte MAC. -/
abbrev MACTable := List (List Nat × MACEntry)

/-- Datagrams a switch operation asks the peer layer to send. -/
inductive SwitchAction where
  | sendTo (peerAddr : List Nat) (frame : List Nat)
  | broadcast (excludePeer : List Nat) (frame : List Nat)
deriving DecidableEq

/-- `Switch.evictOldest`: removes the binding found by the minimum-last-seen
scan (no-op on an empty table). -/
def evictOldest (tbl : MACTable) : MACTable :=
  match findOldestBy MACEntry.LastSeen tbl with
  | none => tbl
  | some r => eraseA r.1 tbl

/-- `Switch.learn`: evicts if the table is at or above capacity, then writes the
entry for `mac` unconditionally. -/
def learn (tbl : MACTable) (mac peerAddr : List Nat) (isLocal : Bool) (now : Nat) :
    MACTable :=
  let t1 := if MACTableMaxSize ≤ tbl.length then evictOldest tbl else tbl
  upsertA mac ⟨peerAddr, now, isLocal⟩ t1

/-- The all-zero `identity.Address{}` used for local MAC-table entries. -/
def zeroAddress : List Nat := [0, 0, 0, 0, 0]

/-- `Switch.HandleLocalFrame`: parse, learn the source as local, then flood,
unicast to a known remote, flood on a miss, or drop a frame for a local MAC.
Returns the new table and the emitted send actions; `none` on a parse error. -/
def HandleLocalFrame (tbl : MACTable) (frame : List Nat) (now : Nat) :
    Option (MACTable × List SwitchAction) :=
  match ParseEthernetFrame frame with
  | none => none
  | some parsed =>
    let t1 := learn tbl parsed.SrcMAC zeroAddress true now
    if parsed.IsBroadcast || parsed.IsMulticast then
      some (t1, [.broadcast zeroAddress frame])
    else
      match lookupA parsed.DstMAC t1 with
      | some entry =>
        if entry.IsLocal then some (t1, [])
        else some (t1, [.sendTo entry.PeerAddr frame])
      | none => some (t1, [.broadcast zeroAddress frame])

/-- `Switch.HandleRemoteFrame`: parse, learn the source as remote at `peerAddr`,
then inject and/or forward per the destination.  The third component is the
frame to inject into the tap (`none` when nothing is injected). -/
def HandleRemoteFrame (tbl : MACTable) (peerAddr frame : List Nat) (now : Nat) :
    Option (MACTable × List SwitchAction × Option (List Nat)) :=
  match ParseEthernetFrame frame with
  | none => none
  | some parsed =>
    let t1 := learn tbl parsed.SrcMAC peerAddr false now
    if parsed.IsBroadcast || parsed.IsMulticast then
      some (t1, [.broadcast peerAddr frame], some frame)
    else
      match lookupA parsed.DstMAC t1 with
      | some entry =>
        if entry.IsLocal then some (t1, [], some frame)
        else some (t1, [.sendTo entry.PeerAddr frame], none)
      | none => some (t1, [.broadcast peerAddr frame], some frame)

/-- `Switch.CleanExpired`: drops non-local entries whose last-seen is before
`now - MACTableExpiry`. -/
def CleanExpired (tbl : MACTable) (now : Nat) : MACTable :=
  tbl.filter (fun p => !(decide (p.2.LastSeen < now - MACTableExpiry) && !p.2.IsLocal))

/-- ARP constants from arp.go. -/
def ARPHeaderSize : Nat := 28

def ARPRequest : Nat := 1

def ARPReplyOp : Nat := 2

def ARPCacheExpiry : Nat := 300000000000

def ARPCacheMaxSize : Nat := 1024

/-- An ARP cache entry: resolved MAC and last-seen instant. -/
structure ARPEntry where
  MAC : List Nat
  LastSeen : Nat
deriving DecidableEq

/-- The ARP cache, keyed by the 4-byte IPv4 address. -/
abbrev ARPCache := List (List Nat × ARPEntry)

/-- Field accessors of the 28-byte IPv4/Ethernet ARP payload. -/
def arpHType (p : List Nat) : Nat := fromBE2 (p.getD 0 0) (p.getD 1 0)

def arpPType (p : List Nat) : Nat := fromBE2 (p.getD 2 0) (p.getD 3 0)

def arpHLen (p : List Nat) : Nat := p.getD 4 0

def arpPLen (p : List Nat) : Nat := p.getD 5 0

def arpOper (p : List Nat) : Nat := fromBE2 (p.getD 6 0) (p.getD 7 0)

def arpSenderMAC (p : List Nat) : List Nat := (p.drop 8).take 6

def arpSenderIP (p : List Nat) : List Nat := (p.drop 14).take 4

def arpTargetIP (p : List Nat) : List Nat := (p.drop 24).take 4

/-- `ARPProxy.learn`: evicts the oldest entry at capacity, then stores a 6-byte
copy of the MAC under the IP. -/
def arpLearn (cache : ARPCache) (ip mac : List Nat) (now : Nat) : ARPCache :=
  let c1 :=
    if ARPCacheMaxSize ≤ cache.length then
      match findOldestBy ARPEntry.LastSeen cache with
      | none => cache
      | some r => eraseA r.1 cache
    else cache
  upsertA ip ⟨fix 6 mac, now⟩ c1

/-- `ARPProxy.buildARPReply`: a 42-byte synthetic reply.  Go fills a zeroed
array by `copy`; with the canonical field widths that is the concatenation
below (`fix` reproduces the `copy` semantics for off-width inputs). -/
def buildARPReply (targetMAC senderMAC senderIP targetIP : List Nat) : List Nat :=
  fix 6 senderMAC ++ fix 6 targetMAC ++ [0x08, 0x06] ++
  [0, 1] ++ [0x08, 0x00] ++ [6] ++ [4] ++ [0, 2] ++
  fix 6 targetMAC ++ fix 4 targetIP ++ fix 6 senderMAC ++ fix 4 senderIP

/-- `ARPProxy.HandleARP` on the ARP payload of a parsed frame: validates the
IPv4/Ethernet header, always learns the sender, answers a fresh cached request
with a synthetic reply, and learns again from replies.  Returns the new cache
and the optional reply frame. -/
def HandleARP (cache : ARPCache) (payload : List Nat) (now : Nat) :
    ARPCache × Option (List Nat) :=
  if payload.length < ARPHeaderSize then (cache, none)
  else if arpHType payload ≠ 1 ∨ arpPType payload ≠ 0x0800 ∨
      arpHLen payload ≠ 6 ∨ arpPLen payload ≠ 4 then (cache, none)
  else
    let senderMAC := arpSenderMAC payload
    let senderIP := arpSenderIP payload
    let targetIP := arpTargetIP payload
    let c1 := arpLearn cache senderIP senderMAC now
    if arpOper payload = ARPRequest then
      match lookupA targetIP c1 with
      | some entry =>
        if now - entry.LastSeen < ARPCacheExpiry then
          (c1, some (buildARPReply entry.MAC senderMAC senderIP targetIP))
        else (c1, none)
      | none => (c1, none)
    else if arpOper payload = ARPReplyOp then
      (arpLearn c1 senderIP senderMAC now, none)
    else (c1, none)

/-- `PeerState` from vl1/peer.go. -/
inductive PeerState where
  | new
  | handshake
  | connected
  | dead
deriving DecidableEq

/-- A peer record.  The mutable Go fields that the embedded operations touch are
kept; timestamps are instants supplied by the caller. -/
structure PeerRec where
  Address : List Nat
  PublicKey : List Nat
  State : PeerState
  Endpoint : Option (List Nat × Nat)
  cipher : Option NoiseCipher
  LastSeen : Nat
deriving DecidableEq

/-- `NewPeer`: fresh state, no cipher, zero timestamps. -/
def NewPeer (addr pubKey : List Nat) (endpoint : Option (List Nat × Nat)) : PeerRec :=
  { Address := addr, PublicKey := pubKey, State := .new, Endpoint := endpoint,
    cipher := none, LastSeen := 0 }

/-- `Peer.IsConnected`: connected state with a non-nil cipher. -/
def PeerRec.IsConnected (p : PeerRec) : Bool :=
  p.State = PeerState.connected ∧ p.cipher.isSome

/-- `Peer.SetCipher`: installs the cipher, marks connected, refreshes last-seen. -/
def PeerRec.SetCipher (p : PeerRec) (c : NoiseCipher) (now : Nat) : PeerRec :=
  { p with cipher := some c, State := .connected, LastSeen := now }

/-- The peer table, keyed by the 5-byte node address. -/
abbrev PeerMgr := List (List Nat × PeerRec)

/-- `PeerManager.AddPeer`: for a known address, only the endpoint is refreshed
(and only when one is supplied); otherwise a fresh record is inserted. -/
def AddPeer (pm : PeerMgr) (addr pubKey : List Nat)
    (endpoint : Option (List Nat × Nat)) : PeerMgr :=
  match lookupA addr pm with
  | some p =>
    match endpoint with
    | some _ => upsertA addr { p with Endpoint := endpoint } pm
    | none => pm
  | none => upsertA addr (NewPeer addr pubKey endpoint) pm

/-- The agent state the hello handler touches: the peer table, the network PSK
and the local public key. -/
structure AgentSt where
  peers : PeerMgr
  psk : List Nat
  localPub : List Nat
deriving DecidableEq

/-- `Agent.handleHandshake`: a hello carries the sender's 32-byte public key.
For a known derived address the endpoint is rebound to the datagram's source and
the peer touched; keys are derived (from the hello's key) only if the peer is
not yet connected.  For an unknown address a peer is created, keys derived, and
a hello sent back.  Returns the new state and the endpoints helloed back to. -/
def handleHandshake (st : AgentSt) (payload : List Nat)
    (src : List Nat × Nat) (now : Nat) : AgentSt × List (List Nat × Nat) :=
  if payload.length < 32 then (st, [])
  else
    let remotePubKey := payload.take 32
    let remoteAddr := AddressFromPublicKey remotePubKey
    match lookupA remoteAddr st.peers with
    | some peer =>
      let p1 := { peer with Endpoint := some src, LastSeen := now }
      let p2 :=
        if p1.IsConnected then p1
        else
          let keys := DeriveKeysFromPSK st.psk st.localPub remotePubKey
          p1.SetCipher (NewNoiseCipher keys.1 keys.2) now
      ({ st with peers := upsertA remoteAddr p2 st.peers }, [])
    | none =>
      let pm1 := AddPeer st.peers remoteAddr remotePubKey (some src)
      let keys := DeriveKeysFromPSK st.psk st.localPub remotePubKey
      let p2 := (NewPeer remoteAddr remotePubKey (some src)).SetCipher
        (NewNoiseCipher keys.1 keys.2) now
      ({ st with peers := upsertA remoteAddr p2 pm1 }, [src])

/-- A sequence of `Encrypt` calls on one cipher, returning every output (in Go
each call can also surface the unreachable key-size error, kept as `none`). -/
def encryptAll (c : NoiseCipher) : List (List Nat) → List (Option (List Nat)) × NoiseCipher
  | [] => ([], c)
  | m :: ms =>
    match c.Encrypt m with
    | none => ((encryptAll c ms).1.cons none, (encryptAll c ms).2)
    | some (c1, out) => ((encryptAll c1 ms).1.cons (some out), (encryptAll c1 ms).2)

/-- The counter embedded in the first eight bytes of an encrypted payload. -/
def embeddedCounter (out : List Nat) : Nat := fromLE (out.take 8)

/-! ## Theorems -/

theorem toLE_length (n x : Nat) : (toLE n x).length = n := by
  induction n generalizing x with
  | zero => rfl
  | succ n ih => simp [toLE, ih]

theorem fromLE_toLE (n x : Nat) : fromLE (toLE n x) = x % 256 ^ n := by
  induction n generalizing x with
  | zero => simp [toLE, fromLE, Nat.mod_one]
  | succ n ih =>
    simp only [toLE, fromLE, ih]
    rw [pow_succ, Nat.mul_comm (256 ^ n) 256, Nat.mod_mul]

theorem fromLE_toLE_of_lt {n x : Nat} (h : x < 256 ^ n) : fromLE (toLE n x) = x := by
  rw [fromLE_toLE, Nat.mod_eq_of_lt h]

theorem fix_length (n : Nat) (l : List Nat) : (fix n l).length = n := by
  simp only [fix, List.length_append, List.length_take, List.length_replicate]
  omega

theorem fix_of_length {n : Nat} {l : List Nat} (h : l.length = n) : fix n l = l := by
  simp [fix, h, List.take_of_length_le (le_of_eq h)]

theorem xorBytes_length (a b : List Nat) :
    (xorBytes a b).length = min a.length b.length := by
  simp [xorBytes]

theorem xorBytes_xorBytes (a b : List Nat) (h : b.length = a.length) :
    xorBytes (xorBytes a b) b = a := by
  induction a generalizing b with
  | nil => cases b <;> simp_all [xorBytes]
  | cons x xs ih =>
    cases b with
    | nil => simp at h
    | cons y ys =>
      simp only [xorBytes, List.zipWith] at *
      rw [Nat.xor_assoc, Nat.xor_self, Nat.xor_zero, ih ys (by simpa using h)]

theorem blakeOut_length (h : List Nat) : (blakeOut h).length = 32 := by
  simp [blakeOut, toLE_length]

theorem blake2sHash_length (key msg : List Nat) : (blake2sHash key msg).length = 32 := by
  simp [blake2sHash, blakeOut_length]

/-- BLAKE2s-256 of the empty string (RFC 7693 / known-answer test). -/
theorem blake2s_empty_vector :
    blake2sHash [] [] =
      [0x69, 0x21, 0x7a, 0x30, 0x79, 0x90, 0x80, 0x94,
       0xe1, 0x11, 0x21, 0xd0, 0x42, 0x35, 0x4a, 0x7c,
       0x1f, 0x55, 0xb6, 0x48, 0x2c, 0xa1, 0xa5, 0x1e,
       0x1b, 0x25, 0x0d, 0xfd, 0x1e, 0xd0, 0xee, 0xf9] := by decide

/-- BLAKE2s-256 of "abc" (known-answer test). -/
theorem blake2s_abc_vector :
    blake2sHash [] [0x61, 0x62, 0x63] =
      [0x50, 0x8c, 0x5e, 0x8c, 0x32, 0x7c, 0x14, 0xe2,
       0xe1, 0xa7, 0x2b, 0xa3, 0x4e, 0xeb, 0x45, 0x2f,
       0x37, 0x45, 0x8b, 0x20, 0x9e, 0xd6, 0x3a, 0x29,
       0x4d, 0x99, 0x9b, 0x4c, 0x86, 0x67, 0x59, 0x82] := by decide

theorem chachaSerial_length (v : List Nat) : (chachaSerial v).length = 64 := by
  simp [chachaSerial, toLE_length]

theorem chachaBlockBytes_length (key nonce : List Nat) (counter : Nat) :
    (chachaBlockBytes key nonce counter).length = 64 := by
  simp [chachaBlockBytes, chachaSerial_length]

theorem chachaBlocks_length (n : Nat) (key nonce : List Nat) (counter : Nat) :
    (chachaBlocks n key nonce counter).length = 64 * n := by
  induction n generalizing counter with
  | zero => rfl
  | succ n ih =>
    simp [chachaBlocks, chachaBlockBytes_length, ih]
    ring

theorem chachaKeystream_length (len : Nat) (key nonce : List Nat) (counter : Nat) :
    (chachaKeystream len key nonce counter).length = len := by
  simp only [chachaKeystream, List.length_take, chachaBlocks_length]
  have h1 := Nat.div_add_mod (len + 63) 64
  have h2 : (len + 63) % 64 < 64 := Nat.mod_lt _ (by norm_num)
  omega

/-- RFC 8439 §2.3.2 ChaCha20 block-function test vector. -/
theorem chacha_block_vector :
    chachaBlockBytes
      [0x00, 0x01, 0x02, 0x03, 0x04, 0x05, 0x06, 0x07, 0x08, 0x09, 0x0a, 0x0b,
       0x0c, 0x0d, 0x0e, 0x0f, 0x10, 0x11, 0x12, 0x13, 0x14, 0x15, 0x16, 0x17,
       0x18, 0x19, 0x1a, 0x1b, 0x1c, 0x1d, 0x1e, 0x1f]
      [0x00, 0x00, 0x00, 0x09, 0x00, 0x00, 0x00, 0x4a, 0x00, 0x00, 0x00, 0x00] 1 =
      [0x10, 0xf1, 0xe7, 0xe4, 0xd1, 0x3b, 0x59, 0x15, 0x50, 0x0f, 0xdd, 0x1f, 0xa3, 0x20, 0x71, 0xc4,
       0xc7, 0xd1, 0xf4, 0xc7, 0x33, 0xc0, 0x68, 0x03, 0x04, 0x22, 0xaa, 0x9a, 0xc3, 0xd4, 0x6c, 0x4e,
       0xd2, 0x82, 0x64, 0x46, 0x07, 0x9f, 0xaa, 0x09, 0x14, 0xc2, 0xd7, 0x05, 0xd9, 0x8b, 0x02, 0xa2,
       0xb5, 0x12, 0x9c, 0xd1, 0xde, 0x16, 0x4e, 0xb9, 0xcb, 0xd0, 0x83, 0xe8, 0xa2, 0x50, 0x3c, 0x4e] := by
  decide

theorem poly1305Tag_length (key msg : List Nat) : (poly1305Tag key msg).length = 16 := by
  simp [poly1305Tag, toLE_length]

/-- RFC 8439 §2.5.2 Poly1305 test vector ("Cryptographic Forum Research Group"). -/
theorem poly1305_vector :
    poly1305Tag
      [0x85, 0xd6, 0xbe, 0x78, 0x57, 0x55, 0x6d, 0x33, 0x7f, 0x44, 0x52, 0xfe,
       0x42, 0xd5, 0x06, 0xa8, 0x01, 0x03, 0x80, 0x8a, 0xfb, 0x0d, 0xb2, 0xfd,
       0x4a, 0xbf, 0xf6, 0xaf, 0x41, 0x49, 0xf5, 0x1b]
      [0x43, 0x72, 0x79, 0x70, 0x74, 0x6f, 0x67, 0x72, 0x61, 0x70, 0x68, 0x69,
       0x63, 0x20, 0x46, 0x6f, 0x72, 0x75, 0x6d, 0x20, 0x52, 0x65, 0x73, 0x65,
       0x61, 0x72, 0x63, 0x68, 0x20, 0x47, 0x72, 0x6f, 0x75, 0x70] =
      [0xa8, 0x06, 0x1d, 0xc1, 0x30, 0x51, 0x36, 0xc6,
       0xc2, 0x2b, 0x8b, 0xaf, 0x0c, 0x01, 0x27, 0xa9] := by decide

theorem aeadSeal_length (key nonce aad m : List Nat) :
    (aeadSeal key nonce aad m).length = m.length + 16 := by
  simp [aeadSeal, xorBytes_length, chachaKeystream_length, poly1305Tag_length]

/-- Authenticated-encryption round trip: opening a sealed message with the same
key, nonce and AAD recovers the plaintext. -/
theorem aeadOpen_aeadSeal (key nonce aad m : List Nat) :
    aeadOpen key nonce aad (aeadSeal key nonce aad m) = some m := by
  have hct : (xorBytes m (chachaKeystream m.length key nonce 1)).length = m.length := by
    simp [xorBytes_length, chachaKeystream_length]
  have hlen : (aeadSeal key nonce aad m).length = m.length + 16 := aeadSeal_length ..
  simp only [aeadOpen, hlen]
  rw [if_neg (by omega)]
  have hsub : m.length + 16 - 16 = m.length := by omega
  simp only [aeadSeal, hsub]
  rw [List.take_left' hct, List.drop_left' hct, if_pos rfl, hct,
    xorBytes_xorBytes _ _ (by simp [chachaKeystream_length])]

theorem hmacBlake2s_length (key data : List Nat) : (hmacBlake2s key data).length = 32 := by
  unfold hmacBlake2s
  split <;> simp [blake2sHash_length]

theorem DeriveKeysFromPSK_fst_length (psk a b : List Nat) :
    (DeriveKeysFromPSK psk a b).1.length = 32 := by
  cases h : lexSmaller a b <;> simp [DeriveKeysFromPSK, h, hmacBlake2s_length]

theorem DeriveKeysFromPSK_snd_length (psk a b : List Nat) :
    (DeriveKeysFromPSK psk a b).2.length = 32 := by
  cases h : lexSmaller a b <;> simp [DeriveKeysFromPSK, h, hmacBlake2s_length]

/-- On equal-length distinct byte strings the comparison loop is antisymmetric. -/
theorem lexSmaller_flip : ∀ (a b : List Nat), a.length = b.length → a ≠ b →
    lexSmaller b a = !lexSmaller a b := by
  intro a
  induction a with
  | nil => intro b h hne; cases b <;> simp_all
  | cons x xs ih =>
    intro b h hne
    cases b with
    | nil => simp at h
    | cons y ys =>
      by_cases hxy : x < y
      · simp [lexSmaller, hxy, Nat.lt_asymm hxy, Nat.ne_of_lt hxy]
      · by_cases hyx : y < x
        · simp [lexSmaller, hxy, hyx]
        · have hxy' : x = y := by omega
          subst hxy'
          have hys : xs ≠ ys := by intro hc; exact hne (by rw [hc])
          simp [lexSmaller, hxy, ih ys (by simpa using h) hys]

/-- The two sides of a link derive mirrored directional keys: the pair computed
with the arguments swapped is the swap of the pair. -/
theorem DeriveKeysFromPSK_symm (psk a b : List Nat)
    (hlen : a.length = b.length) (hne : a ≠ b) :
    (DeriveKeysFromPSK psk a b).1 = (DeriveKeysFromPSK psk b a).2 ∧
    (DeriveKeysFromPSK psk a b).2 = (DeriveKeysFromPSK psk b a).1 := by
  have hflip := lexSmaller_flip a b hlen hne
  unfold DeriveKeysFromPSK
  cases hab : lexSmaller a b <;> simp [hab] at hflip <;> simp [hab, hflip]

/-- For an in-range send counter, `Encrypt` embeds exactly the pre-call counter
value and advances the state by one. -/
theorem NoiseCipher.Encrypt_eq (c : NoiseCipher) (m : List Nat)
    (hk : c.sendKey.length = 32) (hs : c.sendNonce < 2 ^ 64) :
    c.Encrypt m = some ({ c with sendNonce := (c.sendNonce + 1) % 2 ^ 64 },
      toLE 8 c.sendNonce ++ aeadSeal c.sendKey (nonceOf c.sendNonce) [] m) := by
  simp only [NoiseCipher.Encrypt, hk, if_true, reduceIte]
  have harith : (c.sendNonce + 1 + (2 ^ 64 - 1)) % 2 ^ 64 = c.sendNonce := by omega
  rw [Nat.mod_add_mod, harith]

/-- Decrypting an encrypted payload with the matching directional key recovers
the plaintext. -/
theorem NoiseCipher.Decrypt_Encrypt (c₁ c₂ : NoiseCipher) (m : List Nat)
    (hkey : c₂.recvKey = c₁.sendKey) (hk : c₁.sendKey.length = 32)
    (hs : c₁.sendNonce < 2 ^ 64) :
    (c₂.Decrypt (((c₁.Encrypt m).map Prod.snd).getD [])).1 = some m := by
  rw [NoiseCipher.Encrypt_eq c₁ m hk hs]
  simp only [Option.map_some', Option.getD_some]
  have hout : (toLE 8 c₁.sendNonce ++ aeadSeal c₁.sendKey (nonceOf c₁.sendNonce) [] m).length
      = m.length + 24 := by
    simp [toLE_length, aeadSeal_length]; omega
  have htake : (toLE 8 c₁.sendNonce ++ aeadSeal c₁.sendKey (nonceOf c₁.sendNonce) [] m).take 8
      = toLE 8 c₁.sendNonce := List.take_left' (toLE_length 8 _)
  have hdrop : (toLE 8 c₁.sendNonce ++ aeadSeal c₁.sendKey (nonceOf c₁.sendNonce) [] m).drop 8
      = aeadSeal c₁.sendKey (nonceOf c₁.sendNonce) [] m := List.drop_left' (toLE_length 8 _)
  unfold NoiseCipher.Decrypt
  rw [if_neg (by omega), if_pos (by rw [hkey]; exact hk), htake, hdrop,
    fromLE_toLE_of_lt (by rw [show (256 : Nat) ^ 8 = 2 ^ 64 by norm_num]; exact hs),
    hkey]
  simp [aeadOpen_aeadSeal]

section AssocList

variable {κ β : Type} [DecidableEq κ]

theorem lookupA_upsertA_self (k : κ) (v : β) (l : List (κ × β)) :
    lookupA k (upsertA k v l) = some v := by
  unfold upsertA
  cases h : lookupA k l with
  | none =>
    induction l with
    | nil => simp [lookupA]
    | cons p rest ih =>
      unfold lookupA at h ⊢
      by_cases hp : p.1 = k
      · simp [hp] at h
      · simpa [hp] using ih (by simpa [hp] using h)
  | some w =>
    induction l with
    | nil => simp [lookupA] at h
    | cons p rest ih =>
      by_cases hp : p.1 = k
      · simp [lookupA, hp]
      · unfold lookupA at h
        simp only [List.map_cons]
        rw [if_neg hp]
        unfold lookupA
        rw [if_neg hp]
        exact ih (by simpa [hp] using h)

theorem lookupA_map_replace (k k' : κ) (v : β) (l : List (κ × β)) (hne : k' ≠ k) :
    lookupA k' (l.map (fun p => if p.1 = k then (k, v) else p)) = lookupA k' l := by
  induction l with
  | nil => rfl
  | cons p rest ih =>
    by_cases hp : p.1 = k
    · simp only [List.map_cons, if_pos hp, lookupA]
      rw [if_neg (Ne.symm hne), if_neg (by rw [hp]; exact Ne.symm hne), ih]
    · simp only [List.map_cons, if_neg hp, lookupA]
      by_cases hp' : p.1 = k'
      · simp [hp']
      · simp [hp', ih]

theorem lookupA_append_one (k k' : κ) (v : β) (l : List (κ × β)) (hne : k' ≠ k) :
    lookupA k' (l ++ [(k, v)]) = lookupA k' l := by
  induction l with
  | nil => simp [lookupA, Ne.symm hne]
  | cons p rest ih =>
    by_cases hp : p.1 = k'
    · simp [lookupA, hp]
    · simp [lookupA, hp, ih]

theorem lookupA_upsertA_ne (k k' : κ) (v : β) (l : List (κ × β)) (hne : k' ≠ k) :
    lookupA k' (upsertA k v l) = lookupA k' l := by
  unfold upsertA
  cases h : lookupA k l with
  | none => exact lookupA_append_one k k' v l hne
  | some w => exact lookupA_map_replace k k' v l hne

theorem upsertA_length_of_some (k : κ) (v w : β) (l : List (κ × β))
    (h : lookupA k l = some w) : (upsertA k v l).length = l.length := by
  simp [upsertA, h]

theorem upsertA_length_of_none (k : κ) (v : β) (l : List (κ × β))
    (h : lookupA k l = none) : (upsertA k v l).length = l.length + 1 := by
  simp [upsertA, h]

theorem lookupA_eraseA_of_none (k k' : κ) (l : List (κ × β))
    (h : lookupA k l = none) : lookupA k (eraseA k' l) = none := by
  induction l with
  | nil => simpa [eraseA] using h
  | cons p rest ih =>
    unfold lookupA at h
    by_cases hp : p.1 = k
    · simp [hp] at h
    · unfold eraseA
      by_cases hp' : p.1 = k'
      · simpa [hp'] using (by simpa [hp] using h : lookupA k rest = none)
      · rw [if_neg hp']
        unfold lookupA
        rw [if_neg hp]
        exact ih (by simpa [hp] using h)

theorem eraseA_length_of_some (k : κ) (w : β) (l : List (κ × β))
    (h : lookupA k l = some w) : (eraseA k l).length + 1 = l.length := by
  induction l with
  | nil => simp [lookupA] at h
  | cons p rest ih =>
    unfold lookupA at h
    unfold eraseA
    by_cases hp : p.1 = k
    · simp [hp]
    · simpa [hp] using ih (by simpa [hp] using h)

/-- Helper for the fold underlying `findOldestBy`. -/
theorem findOldestBy_fold_spec (f : β → Nat) (l : List (κ × β)) :
    ∀ acc : Option (κ × β),
      (∀ q, acc = some q → ∃ r, (l.foldl
          (fun acc p => match acc with
            | none => some p
            | some q => if f p.2 < f q.2 then some p else some q) acc) = some r ∧
          (r ∈ l ∨ r = q) ∧ f r.2 ≤ f q.2 ∧ ∀ p ∈ l, f r.2 ≤ f p.2) ∧
      (acc = none → l = [] ∨ ∃ r, (l.foldl
          (fun acc p => match acc with
            | none => some p
            | some q => if f p.2 < f q.2 then some p else some q) acc) = some r ∧
          r ∈ l ∧ ∀ p ∈ l, f r.2 ≤ f p.2) := by
  induction l with
  | nil => exact fun acc => ⟨fun q hq => ⟨q, by simp [hq], Or.inr rfl, le_refl _, by simp⟩,
      fun _ => Or.inl rfl⟩
  | cons p rest ih =>
    intro acc
    constructor
    · intro q hq
      subst hq
      by_cases hlt : f p.2 < f q.2
      · obtain ⟨r, hr, hmem, hle, hall⟩ := (ih (some p)).1 p rfl
        refine ⟨r, by simpa [hlt] using hr, ?_, le_trans hle (le_of_lt hlt), ?_⟩
        · rcases hmem with h | h
          · exact Or.inl (List.mem_cons_of_mem _ h)
          · exact Or.inl (h ▸ List.mem_cons_self _ _)
        · intro s hs
          rcases List.mem_cons.mp hs with h | h
          · exact h ▸ hle
          · exact hall s h
      · obtain ⟨r, hr, hmem, hle, hall⟩ := (ih (some q)).1 q rfl
        refine ⟨r, by simpa [hlt] using hr, ?_, hle, ?_⟩
        · rcases hmem with h | h
          · exact Or.inl (List.mem_cons_of_mem _ h)
          · exact Or.inr h
        · intro s hs
          rcases List.mem_cons.mp hs with h | h
          · exact h ▸ le_trans hle (not_lt.mp hlt)
          · exact hall s h
    · intro hacc
      subst hacc
      obtain ⟨r, hr, hmem, hle, hall⟩ := (ih (some p)).1 p rfl
      refine Or.inr ⟨r, by simpa using hr, ?_, ?_⟩
      · rcases hmem with h | h
        · exact List.mem_cons_of_mem _ h
        · exact h ▸ List.mem_cons_self _ _
      · intro s hs
        rcases List.mem_cons.mp hs with h | h
        · exact h ▸ hle
        · exact hall s h

/-- On a nonempty map the eviction scan returns a binding of the map whose
measure is minimal over all bindings. -/
theorem findOldestBy_spec (f : β → Nat) (l : List (κ × β)) (hne : l ≠ []) :
    ∃ r, findOldestBy f l = some r ∧ r ∈ l ∧ ∀ p ∈ l, f r.2 ≤ f p.2 := by
  rcases (findOldestBy_fold_spec f l none).2 rfl with h | h
  · exact absurd h hne
  · exact h

/-- Members of an association list are found by `lookupA` (at some binding with
the same key; with unique keys, exactly this one).  Stated in the direction the
eviction theorems need: a `lookupA` hit exists for the returned key. -/
theorem lookupA_isSome_of_mem {k : κ} {v : β} {l : List (κ × β)} (h : (k, v) ∈ l) :
    ∃ w, lookupA k l = some w := by
  induction l with
  | nil => simp at h
  | cons p rest ih =>
    rcases List.mem_cons.mp h with h1 | h1
    · exact ⟨p.2, by simp [lookupA, ← h1]⟩
    · by_cases hp : p.1 = k
      · exact ⟨p.2, by simp [lookupA, hp]⟩
      · obtain ⟨w, hw⟩ := ih h1
        exact ⟨w, by simp [lookupA, hp, hw]⟩

theorem lookupA_of_not_mem_keys {k : κ} {l : List (κ × β)}
    (h : ∀ p ∈ l, p.1 ≠ k) : lookupA k l = none := by
  induction l with
  | nil => rfl
  | cons p rest ih =>
    unfold lookupA
    rw [if_neg (h p (List.mem_cons_self p rest))]
    exact ih (fun q hq => h q (List.mem_cons_of_mem p hq))

theorem lookupA_eraseA_ne (k k' : κ) (l : List (κ × β)) (hne : k' ≠ k) :
    lookupA k' (eraseA k l) = lookupA k' l := by
  induction l with
  | nil => rfl
  | cons p rest ih =>
    unfold eraseA
    by_cases hp : p.1 = k
    · rw [if_pos hp]
      simp only [lookupA]
      rw [if_neg (by rw [hp]; exact Ne.symm hne)]
    · rw [if_neg hp]
      simp only [lookupA]
      by_cases hp' : p.1 = k'
      · simp [hp']
      · simp [hp', ih]

theorem lookupA_eraseA_self (k : κ) (l : List (κ × β))
    (hnd : (l.map Prod.fst).Nodup) : lookupA k (eraseA k l) = none := by
  induction l with
  | nil => rfl
  | cons p rest ih =>
    have hnd2 : (p.1 :: rest.map Prod.fst).Nodup := by simpa using hnd
    have hhead : p.1 ∉ rest.map Prod.fst := (List.nodup_cons.mp hnd2).1
    have htail : (rest.map Prod.fst).Nodup := (List.nodup_cons.mp hnd2).2
    unfold eraseA
    by_cases hp : p.1 = k
    · rw [if_pos hp]
      refine lookupA_of_not_mem_keys (fun q hq hqk => ?_)
      exact hhead (by rw [hp, ← hqk]; exact List.mem_map_of_mem Prod.fst hq)
    · rw [if_neg hp]
      simp only [lookupA]
      rw [if_neg hp]
      exact ih htail

/-- Looking up an indexed map at the image of an index present in the index
list: with keys injective over the list, the binding for that index is found. -/
theorem lookupA_map_idx {β : Type} (g : Nat → κ) (f : Nat → β) (idxs : List Nat) (j : Nat)
    (hj : j ∈ idxs) (hinj : ∀ i ∈ idxs, g i = g j → i = j) :
    lookupA (g j) (idxs.map (fun i => (g i, f i))) = some (f j) := by
  induction idxs with
  | nil => simp at hj
  | cons i rest ih =>
    simp only [List.map_cons, lookupA]
    by_cases hgi : g i = g j
    · rw [if_pos hgi]
      have : i = j := hinj i (List.mem_cons_self i rest) hgi
      simp [this]
    · rw [if_neg hgi]
      have hjr : j ∈ rest := by
        rcases List.mem_cons.mp hj with h | h
        · exact absurd (by rw [h]) hgi
        · exact h
      exact ih hjr (fun i hi => hinj i (List.mem_cons_of_mem _ hi))

/-- Looking up an indexed map at a key hit by no index of the list misses. -/
theorem lookupA_map_idx_none {β : Type} (g : Nat → κ) (f : Nat → β) (idxs : List Nat) (k : κ)
    (h : ∀ i ∈ idxs, g i ≠ k) :
    lookupA k (idxs.map (fun i => (g i, f i))) = none := by
  refine lookupA_of_not_mem_keys (fun p hp => ?_)
  obtain ⟨i, hi, hpi⟩ := List.mem_map.mp hp
  rw [← hpi]
  exact h i hi

end AssocList

theorem toLE_inj {n x y : Nat} (hx : x < 256 ^ n) (hy : y < 256 ^ n)
    (h : toLE n x = toLE n y) : x = y := by
  have h2 := congrArg fromLE h
  rwa [fromLE_toLE, fromLE_toLE, Nat.mod_eq_of_lt hx, Nat.mod_eq_of_lt hy] at h2

/-- The `i`-th output of an encrypt sequence embeds the starting counter plus
`i`, modulo `2 ^ 64`. -/
theorem encryptAll_get (ms : List (List Nat)) : ∀ (c : NoiseCipher) (i : Nat),
    c.sendKey.length = 32 → c.sendNonce < 2 ^ 64 → i < ms.length →
    ∃ out, (encryptAll c ms).1.get? i = some (some out) ∧
      embeddedCounter out = (c.sendNonce + i) % 2 ^ 64 := by
  induction ms with
  | nil => intro c i _ _ h; simp at h
  | cons m ms ih =>
    intro c i hk hs hi
    have henc := NoiseCipher.Encrypt_eq c m hk hs
    simp only [encryptAll, henc]
    cases i with
    | zero =>
      refine ⟨toLE 8 c.sendNonce ++ aeadSeal c.sendKey (nonceOf c.sendNonce) [] m,
        by simp, ?_⟩
      unfold embeddedCounter
      rw [List.take_left' (toLE_length 8 _), fromLE_toLE_of_lt
        (by rw [show (256 : Nat) ^ 8 = 2 ^ 64 by norm_num]; exact hs)]
      omega
    | succ i =>
      obtain ⟨out, hout, hemb⟩ := ih { c with sendNonce := (c.sendNonce + 1) % 2 ^ 64 } i
        hk (Nat.mod_lt _ (by norm_num)) (by simpa using hi)
      refine ⟨out, by simpa using hout, ?_⟩
      rw [hemb]
      show ((c.sendNonce + 1) % 2 ^ 64 + i) % 2 ^ 64 = (c.sendNonce + (i + 1)) % 2 ^ 64
      rw [Nat.mod_add_mod]
      ring_nf

/-- `Decrypt` on a long-enough input with a well-sized key reduces to the AEAD
open of the body under the embedded counter's nonce, advancing the
high-water-mark on success. -/
theorem NoiseCipher.Decrypt_eq (c : NoiseCipher) (data : List Nat)
    (hk : c.recvKey.length = 32) (hlen : 24 ≤ data.length) :
    c.Decrypt data =
      match aeadOpen c.recvKey (nonceOf (fromLE (data.take 8))) [] (data.drop 8) with
      | none => (none, c)
      | some pt =>
        (some pt,
          { c with recvNonce :=
              if c.recvNonce ≤ fromLE (data.take 8) then (fromLE (data.take 8) + 1) % 2 ^ 64
              else c.recvNonce }) := by
  unfold NoiseCipher.Decrypt
  rw [if_neg (by omega), if_pos hk]

/-- `aeadOpen` with empty AAD succeeds exactly when the recomputed Poly1305 tag
over the ciphertext body equals the attached tag. -/
theorem aeadOpen_isSome (key nonce ct : List Nat) (h : 16 ≤ ct.length) :
    ((aeadOpen key nonce [] ct).isSome = true) ↔
      poly1305Tag ((chachaBlockBytes key nonce 0).take 32)
        (macData [] (ct.take (ct.length - 16))) = ct.drop (ct.length - 16) := by
  unfold aeadOpen
  rw [if_neg (by omega)]
  by_cases htag : poly1305Tag ((chachaBlockBytes key nonce 0).take 32)
      (macData [] (ct.take (ct.length - 16))) = ct.drop (ct.length - 16)
  · simp [htag]
  · simp [htag]

/-- C4: for every 32-byte PSK and every pair of distinct 32-byte public keys A
and B, the directional keys computed independently by the two sides satisfy
`A.send = B.recv` and `A.recv = B.send`. -/
theorem claim_C4 (psk A B : List Nat) (hA : A.length = 32) (hB : B.length = 32)
    (hne : A ≠ B) :
    (DeriveKeysFromPSK psk A B).1 = (DeriveKeysFromPSK psk B A).2 ∧
    (DeriveKeysFromPSK psk A B).2 = (DeriveKeysFromPSK psk B A).1 :=
  DeriveKeysFromPSK_symm psk A B (hA.trans hB.symm) hne

/-- Witness for C4 at concrete keys. -/
theorem claim_C4_witness :
    (List.replicate 32 1).length = 32 ∧ (List.replicate 32 2).length = 32 ∧
    List.replicate 32 1 ≠ List.replicate 32 2 ∧
    ((DeriveKeysFromPSK (List.replicate 32 0) (List.replicate 32 1) (List.replicate 32 2)).1 =
      (DeriveKeysFromPSK (List.replicate 32 0) (List.replicate 32 2) (List.replicate 32 1)).2 ∧
     (DeriveKeysFromPSK (List.replicate 32 0) (List.replicate 32 1) (List.replicate 32 2)).2 =
      (DeriveKeysFromPSK (List.replicate 32 0) (List.replicate 32 2) (List.replicate 32 1)).1) :=
  ⟨by decide, by decide, by decide,
    claim_C4 (List.replicate 32 0) (List.replicate 32 1) (List.replicate 32 2)
      (by decide) (by decide) (by decide)⟩

/-- C5: for every plaintext m, with peer A's cipher built from
`DeriveKeysFromPSK psk A B` and peer B's from `DeriveKeysFromPSK psk B A`
(distinct 32-byte public keys), B decrypts A's encryption of m back to m. -/
theorem claim_C5 (psk A B m : List Nat) (hA : A.length = 32) (hB : B.length = 32)
    (hne : A ≠ B) :
    ((NewNoiseCipher (DeriveKeysFromPSK psk B A).1 (DeriveKeysFromPSK psk B A).2).Decrypt
      ((((NewNoiseCipher (DeriveKeysFromPSK psk A B).1
          (DeriveKeysFromPSK psk A B).2).Encrypt m).map Prod.snd).getD [])).1 = some m := by
  have hsymm := DeriveKeysFromPSK_symm psk A B (hA.trans hB.symm) hne
  exact NoiseCipher.Decrypt_Encrypt _ _ m
    (by simpa [NewNoiseCipher] using hsymm.1.symm)
    (by simp [NewNoiseCipher, DeriveKeysFromPSK_fst_length])
    (by norm_num [NewNoiseCipher])

/-- Witness for C5 at concrete keys and plaintext. -/
theorem claim_C5_witness :
    (List.replicate 32 1).length = 32 ∧ (List.replicate 32 2).length = 32 ∧
    List.replicate 32 1 ≠ List.replicate 32 2 ∧
    ((NewNoiseCipher
        (DeriveKeysFromPSK (List.replicate 32 0) (List.replicate 32 2) (List.replicate 32 1)).1
        (DeriveKeysFromPSK (List.replicate 32 0) (List.replicate 32 2) (List.replicate 32 1)).2).Decrypt
      ((((NewNoiseCipher
          (DeriveKeysFromPSK (List.replicate 32 0) (List.replicate 32 1) (List.replicate 32 2)).1
          (DeriveKeysFromPSK (List.replicate 32 0) (List.replicate 32 1)
            (List.replicate 32 2)).2).Encrypt [10, 20, 30]).map Prod.snd).getD [])).1 =
      some [10, 20, 30] :=
  ⟨by decide, by decide, by decide,
    claim_C5 (List.replicate 32 0) (List.replicate 32 1) (List.replicate 32 2) [10, 20, 30]
      (by decide) (by decide) (by decide)⟩

/-- C10: for every plaintext of length n, `NoiseCipher.Encrypt` succeeds (the
only Go error source is the key-size check, impossible for the `[32]byte` key)
and returns a payload of exactly n + 24 bytes: 8-byte counter, ciphertext, and
the 16-byte Poly1305 tag. -/
theorem claim_C10 (c : NoiseCipher) (m : List Nat) (hk : c.sendKey.length = 32) :
    ∃ c' out, c.Encrypt m = some (c', out) ∧ out.length = m.length + 24 := by
  unfold NoiseCipher.Encrypt
  rw [if_pos hk]
  exact ⟨_, _, rfl, by simp [toLE_length, aeadSeal_length]; omega⟩

/-- Witness for C10 at a concrete cipher and plaintext. -/
theorem claim_C10_witness :
    (NewNoiseCipher (List.replicate 32 3) (List.replicate 32 4)).sendKey.length = 32 ∧
    ∃ c' out,
      (NewNoiseCipher (List.replicate 32 3) (List.replicate 32 4)).Encrypt [1, 2, 3, 4, 5] =
        some (c', out) ∧ out.length = [1, 2, 3, 4, 5].length + 24 :=
  ⟨by decide,
    claim_C10 (NewNoiseCipher (List.replicate 32 3) (List.replicate 32 4)) [1, 2, 3, 4, 5]
      (by decide)⟩

/-- C6 (amended): starting from a fresh cipher, the counters embedded in the
outputs of any encrypt sequence are exactly the output indices while fewer than
`2 ^ 64` encryptions have occurred, hence strictly increasing on that range.
(The unamended universal claim fails at the `uint64` wrap; see the
counterexample.) -/
theorem claim_C6_amended (c : NoiseCipher) (ms : List (List Nat)) (i j : Nat)
    (hk : c.sendKey.length = 32) (h0 : c.sendNonce = 0)
    (hij : i < j) (hj : j < ms.length) (hwrap : j < 2 ^ 64) :
    ∃ oi oj, (encryptAll c ms).1.get? i = some (some oi) ∧
      (encryptAll c ms).1.get? j = some (some oj) ∧
      embeddedCounter oi = i ∧ embeddedCounter oj = j ∧
      embeddedCounter oi < embeddedCounter oj := by
  obtain ⟨oi, hoi, hei⟩ := encryptAll_get ms c i hk (by omega) (by omega)
  obtain ⟨oj, hoj, hej⟩ := encryptAll_get ms c j hk (by omega) hj
  rw [h0] at hei hej
  have hei' : embeddedCounter oi = i := by rw [hei]; omega
  have hej' : embeddedCounter oj = j := by rw [hej]; omega
  exact ⟨oi, oj, hoi, hoj, hei', hej', by omega⟩

/-- Witness for the amended C6 on a concrete three-message sequence. -/
theorem claim_C6_witness :
    (NewNoiseCipher (List.replicate 32 0) (List.replicate 32 0)).sendKey.length = 32 ∧
    (NewNoiseCipher (List.replicate 32 0) (List.replicate 32 0)).sendNonce = 0 ∧
    (0 : Nat) < 2 ∧ (2 : Nat) < ([[], [], []] : List (List Nat)).length ∧ (2 : Nat) < 2 ^ 64 ∧
    ∃ oi oj,
      (encryptAll (NewNoiseCipher (List.replicate 32 0) (List.replicate 32 0))
        [[], [], []]).1.get? 0 = some (some oi) ∧
      (encryptAll (NewNoiseCipher (List.replicate 32 0) (List.replicate 32 0))
        [[], [], []]).1.get? 2 = some (some oj) ∧
      embeddedCounter oi = 0 ∧ embeddedCounter oj = 2 ∧
      embeddedCounter oi < embeddedCounter oj :=
  ⟨by decide, by decide, by decide, by decide, by decide,
    claim_C6_amended (NewNoiseCipher (List.replicate 32 0) (List.replicate 32 0))
      [[], [], []] 0 2 (by decide) (by decide) (by decide) (by decide) (by decide)⟩

/-- Counterexample to C6 as stated: over the `uint64` counter the sequence of
embedded counters is not strictly increasing for every sequence of calls — after
`2 ^ 64` encryptions the counter embedded in the output equals the one embedded
in the very first output, so a counter value is reused with the same send key. -/
theorem claim_C6_cex :
    ∃ o1 o2,
      (encryptAll (NewNoiseCipher (List.replicate 32 0) (List.replicate 32 0))
        (List.replicate (2 ^ 64 + 1) [])).1.get? 0 = some (some o1) ∧
      (encryptAll (NewNoiseCipher (List.replicate 32 0) (List.replicate 32 0))
        (List.replicate (2 ^ 64 + 1) [])).1.get? (2 ^ 64) = some (some o2) ∧
      (0 : Nat) < 2 ^ 64 ∧ embeddedCounter o1 = embeddedCounter o2 := by
  obtain ⟨o1, ho1, he1⟩ := encryptAll_get (List.replicate (2 ^ 64 + 1) [])
    (NewNoiseCipher (List.replicate 32 0) (List.replicate 32 0)) 0
    (by simp [NewNoiseCipher]) (by norm_num [NewNoiseCipher])
    (by rw [List.length_replicate]; norm_num)
  obtain ⟨o2, ho2, he2⟩ := encryptAll_get (List.replicate (2 ^ 64 + 1) [])
    (NewNoiseCipher (List.replicate 32 0) (List.replicate 32 0)) (2 ^ 64)
    (by simp [NewNoiseCipher]) (by norm_num [NewNoiseCipher])
    (by rw [List.length_replicate]; norm_num)
  refine ⟨o1, o2, ho1, ho2, by norm_num, ?_⟩
  rw [he1, he2]
  show ((0 : Nat) + 0) % 2 ^ 64 = (0 + 2 ^ 64) % 2 ^ 64
  norm_num

/-- C7 (amended): `Decrypt` rejects nothing based on the counter value — for a
well-formed input its success is independent of the receive high-water-mark and
is decided solely by the Poly1305 tag; after a successful decryption of counter
c the high-water-mark becomes `(c + 1) mod 2 ^ 64` when `c` is at or above it,
which equals `max h (c + 1)` whenever `c + 1 < 2 ^ 64`.  (The unamended
`h ← max(h, c+1)` fails at the `uint64` wrap; see the counterexample.) -/
theorem claim_C7_amended (c : NoiseCipher) (data : List Nat)
    (hk : c.recvKey.length = 32) (hlen : 24 ≤ data.length) :
    (((c.Decrypt data).1.isSome = true) ↔
      poly1305Tag ((chachaBlockBytes c.recvKey (nonceOf (fromLE (data.take 8))) 0).take 32)
        (macData [] ((data.drop 8).take (data.length - 8 - 16))) =
      (data.drop 8).drop (data.length - 8 - 16)) ∧
    (∀ h' : Nat,
      (NoiseCipher.Decrypt { c with recvNonce := h' } data).1 = (c.Decrypt data).1) ∧
    ((c.Decrypt data).1.isSome = true →
      (c.Decrypt data).2.recvNonce =
        if c.recvNonce ≤ fromLE (data.take 8) then (fromLE (data.take 8) + 1) % 2 ^ 64
        else c.recvNonce) ∧
    ((c.Decrypt data).1.isSome = true → fromLE (data.take 8) + 1 < 2 ^ 64 →
      (c.Decrypt data).2.recvNonce = max c.recvNonce (fromLE (data.take 8) + 1)) := by
  have hct : 16 ≤ (data.drop 8).length := by simp; omega
  have hiff := aeadOpen_isSome c.recvKey (nonceOf (fromLE (data.take 8))) (data.drop 8) hct
  have hlens : (data.drop 8).length - 16 = data.length - 8 - 16 := by simp
  rw [hlens] at hiff
  have hd := NoiseCipher.Decrypt_eq c data hk hlen
  refine ⟨?_, ?_, ?_, ?_⟩
  · rw [hd]
    cases haeo : aeadOpen c.recvKey (nonceOf (fromLE (data.take 8))) [] (data.drop 8) with
    | none => simpa [haeo] using hiff
    | some pt => simpa [haeo] using hiff
  · intro h'
    have hd' := NoiseCipher.Decrypt_eq { c with recvNonce := h' } data hk hlen
    rw [hd, hd']
    cases haeo : aeadOpen c.recvKey (nonceOf (fromLE (data.take 8))) [] (data.drop 8) <;> simp
  · intro hsome
    rw [hd] at hsome ⊢
    cases haeo : aeadOpen c.recvKey (nonceOf (fromLE (data.take 8))) [] (data.drop 8) with
    | none => rw [haeo] at hsome; simp at hsome
    | some pt => simp
  · intro hsome hsmall
    rw [hd] at hsome ⊢
    cases haeo : aeadOpen c.recvKey (nonceOf (fromLE (data.take 8))) [] (data.drop 8) with
    | none => rw [haeo] at hsome; simp at hsome
    | some pt =>
      simp only
      by_cases hle : c.recvNonce ≤ fromLE (data.take 8)
      · rw [if_pos hle, Nat.mod_eq_of_lt hsmall]
        omega
      · rw [if_neg hle]
        omega

/-- Witness for the amended C7: a concrete valid payload with counter 5
decrypts, and the high-water-mark of the fresh cipher advances to 6. -/
theorem claim_C7_witness :
    (NewNoiseCipher (List.replicate 32 0) (List.replicate 32 0)).recvKey.length = 32 ∧
    24 ≤ (toLE 8 5 ++
      aeadSeal (List.replicate 32 0) (nonceOf 5) [] [77, 78]).length ∧
    (((NewNoiseCipher (List.replicate 32 0) (List.replicate 32 0)).Decrypt
        (toLE 8 5 ++ aeadSeal (List.replicate 32 0) (nonceOf 5) [] [77, 78])).1 =
      some [77, 78]) ∧
    (((NewNoiseCipher (List.replicate 32 0) (List.replicate 32 0)).Decrypt
        (toLE 8 5 ++ aeadSeal (List.replicate 32 0) (nonceOf 5) [] [77, 78])).2.recvNonce =
      max (NewNoiseCipher (List.replicate 32 0) (List.replicate 32 0)).recvNonce
        (fromLE ((toLE 8 5 ++
          aeadSeal (List.replicate 32 0) (nonceOf 5) [] [77, 78]).take 8) + 1)) := by
  refine ⟨by decide, by decide, by decide, ?_⟩
  have h := (claim_C7_amended (NewNoiseCipher (List.replicate 32 0) (List.replicate 32 0))
    (toLE 8 5 ++ aeadSeal (List.replicate 32 0) (nonceOf 5) [] [77, 78])
    (by decide) (by decide)).2.2.2 (by decide) (by decide)
  rw [h]

/-- Counterexample to C7 as stated: at counter `c = 2 ^ 64 - 1` (a representable
8-byte value) a successful decryption sets the high-water-mark to `0`, not to
`max h (c + 1) = 2 ^ 64` — the Go `uint64` increment wraps. -/
theorem claim_C7_cex :
    (((NewNoiseCipher (List.replicate 32 0) (List.replicate 32 0)).Decrypt
        (toLE 8 (2 ^ 64 - 1) ++
          aeadSeal (List.replicate 32 0) (nonceOf (2 ^ 64 - 1)) [] [42])).1 = some [42]) ∧
    (((NewNoiseCipher (List.replicate 32 0) (List.replicate 32 0)).Decrypt
        (toLE 8 (2 ^ 64 - 1) ++
          aeadSeal (List.replicate 32 0) (nonceOf (2 ^ 64 - 1)) [] [42])).2.recvNonce = 0) ∧
    fromLE ((toLE 8 (2 ^ 64 - 1) ++
      aeadSeal (List.replicate 32 0) (nonceOf (2 ^ 64 - 1)) [] [42]).take 8) = 2 ^ 64 - 1 ∧
    (0 : Nat) ≠ max (NewNoiseCipher (List.replicate 32 0) (List.replicate 32 0)).recvNonce
      (2 ^ 64 - 1 + 1) := by
  refine ⟨by decide, by decide, by decide, by decide⟩

/-- Whatever the forwarding decision, a successful `HandleRemoteFrame` leaves
the table produced by the remote learn of the frame's source MAC. -/
theorem HandleRemoteFrame_parts (tbl : MACTable) (peerAddr frame : List Nat) (now : Nat)
    (hlen : 14 ≤ frame.length) :
    ∃ acts inj, HandleRemoteFrame tbl peerAddr frame now =
      some (learn tbl ((frame.drop 6).take 6) peerAddr false now, acts, inj) := by
  have hp : ParseEthernetFrame frame = some
      { DstMAC := frame.take 6, SrcMAC := (frame.drop 6).take 6,
        EtherType := fromBE2 (frame.getD 12 0) (frame.getD 13 0),
        Payload := frame.drop EthernetHeaderSize, Raw := frame } := by
    unfold ParseEthernetFrame
    rw [if_neg (by simp only [EthernetHeaderSize]; omega)]
  simp only [HandleRemoteFrame, hp]
  split
  · exact ⟨_, _, rfl⟩
  · split
    · split
      · exact ⟨_, _, rfl⟩
      · exact ⟨_, _, rfl⟩
    · exact ⟨_, _, rfl⟩

/-- After any `learn` of `mac`, looking up `mac` returns exactly the learned
entry. -/
theorem lookupA_learn_self (tbl : MACTable) (mac peerAddr : List Nat)
    (isLocal : Bool) (now : Nat) :
    lookupA mac (learn tbl mac peerAddr isLocal now) = some ⟨peerAddr, now, isLocal⟩ := by
  unfold learn
  exact lookupA_upsertA_self mac _ _

/-- C1 (amended): a MAC-table entry marked local is not protected — a later
`HandleRemoteFrame` whose frame carries that source MAC unconditionally
overwrites the entry with `remote(peer)`: the learn in switch.go replaces
whatever was stored.  (The claimed invariant fails; see the counterexample.) -/
theorem claim_C1_amended (tbl : MACTable) (peerAddr frame : List Nat) (now : Nat)
    (e : MACEntry) (hlen : 14 ≤ frame.length)
    (hloc : lookupA ((frame.drop 6).take 6) tbl = some e)
    (hl : e.IsLocal = true) :
    ∃ t1 acts inj, HandleRemoteFrame tbl peerAddr frame now = some (t1, acts, inj) ∧
      lookupA ((frame.drop 6).take 6) t1 = some ⟨peerAddr, now, false⟩ := by
  obtain ⟨acts, inj, hh⟩ := HandleRemoteFrame_parts tbl peerAddr frame now hlen
  exact ⟨_, acts, inj, hh, lookupA_learn_self ..⟩

/-- Witness for the amended C1 at a concrete table and frame. -/
theorem claim_C1_witness :
    14 ≤ ([255, 255, 255, 255, 255, 255] ++ ([2, 0, 0, 0, 0, 1] ++ [8, 0]) : List Nat).length ∧
    lookupA ((([255, 255, 255, 255, 255, 255] ++ ([2, 0, 0, 0, 0, 1] ++ [8, 0])).drop 6).take 6)
      [([2, 0, 0, 0, 0, 1], (⟨zeroAddress, 0, true⟩ : MACEntry))] =
      some ⟨zeroAddress, 0, true⟩ ∧
    (⟨zeroAddress, 0, true⟩ : MACEntry).IsLocal = true ∧
    ∃ t1 acts inj,
      HandleRemoteFrame [([2, 0, 0, 0, 0, 1], ⟨zeroAddress, 0, true⟩)] [9, 9, 9, 9, 9]
        ([255, 255, 255, 255, 255, 255] ++ ([2, 0, 0, 0, 0, 1] ++ [8, 0])) 100 =
        some (t1, acts, inj) ∧
      lookupA ((([255, 255, 255, 255, 255, 255] ++ ([2, 0, 0, 0, 0, 1] ++ [8, 0])).drop 6).take 6)
        t1 = some ⟨[9, 9, 9, 9, 9], 100, false⟩ :=
  ⟨by decide, by decide, by decide,
    claim_C1_amended [([2, 0, 0, 0, 0, 1], ⟨zeroAddress, 0, true⟩)] [9, 9, 9, 9, 9]
      ([255, 255, 255, 255, 255, 255] ++ ([2, 0, 0, 0, 0, 1] ++ [8, 0])) 100
      ⟨zeroAddress, 0, true⟩ (by decide) (by decide) (by decide)⟩

/-- Counterexample to C1 as stated: a broadcast frame from remote peer
`[9,9,9,9,9]` whose source MAC `02:00:00:00:00:01` is recorded as local flips
that entry to `remote(peer)` — the local mapping is not preserved. -/
theorem claim_C1_cex :
    lookupA [2, 0, 0, 0, 0, 1]
      [([2, 0, 0, 0, 0, 1], (⟨zeroAddress, 0, true⟩ : MACEntry))] =
      some ⟨zeroAddress, 0, true⟩ ∧
    (HandleRemoteFrame [([2, 0, 0, 0, 0, 1], ⟨zeroAddress, 0, true⟩)] [9, 9, 9, 9, 9]
      [255, 255, 255, 255, 255, 255, 2, 0, 0, 0, 0, 1, 8, 0] 100).isSome = true ∧
    lookupA [2, 0, 0, 0, 0, 1]
      (((HandleRemoteFrame [([2, 0, 0, 0, 0, 1], ⟨zeroAddress, 0, true⟩)] [9, 9, 9, 9, 9]
        [255, 255, 255, 255, 255, 255, 2, 0, 0, 0, 0, 1, 8, 0] 100).getD
          ([], [], none)).1) = some ⟨[9, 9, 9, 9, 9], 100, false⟩ := by decide

/-- At capacity, `learn` of a fresh MAC evicts exactly one binding — one whose
last-seen is minimal over the whole table — and restores the size to 4,096. -/
theorem learn_at_capacity (tbl : MACTable) (mac peerAddr : List Nat) (isLocal : Bool)
    (now : Nat) (hfull : tbl.length = MACTableMaxSize)
    (hfresh : lookupA mac tbl = none) :
    ∃ k e, findOldestBy MACEntry.LastSeen tbl = some (k, e) ∧ (k, e) ∈ tbl ∧
      (∀ p ∈ tbl, e.LastSeen ≤ p.2.LastSeen) ∧
      learn tbl mac peerAddr isLocal now =
        upsertA mac ⟨peerAddr, now, isLocal⟩ (eraseA k tbl) ∧
      (learn tbl mac peerAddr isLocal now).length = MACTableMaxSize := by
  have hne : tbl ≠ [] := by
    intro h
    rw [h] at hfull
    simp [MACTableMaxSize] at hfull
  obtain ⟨r, hr, hmem, hmin⟩ := findOldestBy_spec MACEntry.LastSeen tbl hne
  obtain ⟨k, e⟩ := r
  have hlearn : learn tbl mac peerAddr isLocal now =
      upsertA mac ⟨peerAddr, now, isLocal⟩ (eraseA k tbl) := by
    unfold learn evictOldest
    rw [if_pos (le_of_eq hfull.symm), hr]
  have hfresh2 : lookupA mac (eraseA k tbl) = none := lookupA_eraseA_of_none mac k tbl hfresh
  obtain ⟨w, hw⟩ := lookupA_isSome_of_mem hmem
  have herase := eraseA_length_of_some k w tbl hw
  refine ⟨k, e, hr, hmem, fun p hp => hmin p hp, hlearn, ?_⟩
  rw [hlearn, upsertA_length_of_none _ _ _ hfresh2]
  simp [MACTableMaxSize] at hfull ⊢
  omega

/-- C3 (amended): when `learn` inserts a fresh MAC into a table holding 4,096
entries, exactly one existing entry is evicted and the evicted entry has the
oldest last-seen among all entries — including local ones; a local entry can be
chosen.  (The non-local restriction in the claim fails; see the
counterexample.) -/
theorem claim_C3_amended (tbl : MACTable) (mac peerAddr : List Nat) (isLocal : Bool)
    (now : Nat) (hfull : tbl.length = MACTableMaxSize)
    (hfresh : lookupA mac tbl = none) :
    ∃ k e, findOldestBy MACEntry.LastSeen tbl = some (k, e) ∧ (k, e) ∈ tbl ∧
      (∀ p ∈ tbl, e.LastSeen ≤ p.2.LastSeen) ∧
      learn tbl mac peerAddr isLocal now =
        upsertA mac ⟨peerAddr, now, isLocal⟩ (eraseA k tbl) ∧
      (learn tbl mac peerAddr isLocal now).length = MACTableMaxSize :=
  learn_at_capacity tbl mac peerAddr isLocal now hfull hfresh

/-- Witness for the amended C3 on a concrete full table. -/
theorem claim_C3_witness :
    ((List.range 4096).map
      (fun i => (toLE 6 i, (⟨[1, 1, 1, 1, 1], i, false⟩ : MACEntry)))).length =
      MACTableMaxSize ∧
    lookupA (toLE 6 5000)
      ((List.range 4096).map
        (fun i => (toLE 6 i, (⟨[1, 1, 1, 1, 1], i, false⟩ : MACEntry)))) = none ∧
    ∃ k e,
      findOldestBy MACEntry.LastSeen
        ((List.range 4096).map
          (fun i => (toLE 6 i, (⟨[1, 1, 1, 1, 1], i, false⟩ : MACEntry)))) = some (k, e) ∧
      (k, e) ∈ ((List.range 4096).map
        (fun i => (toLE 6 i, (⟨[1, 1, 1, 1, 1], i, false⟩ : MACEntry)))) ∧
      (∀ p ∈ ((List.range 4096).map
        (fun i => (toLE 6 i, (⟨[1, 1, 1, 1, 1], i, false⟩ : MACEntry)))),
        e.LastSeen ≤ p.2.LastSeen) ∧
      learn ((List.range 4096).map
          (fun i => (toLE 6 i, (⟨[1, 1, 1, 1, 1], i, false⟩ : MACEntry))))
          (toLE 6 5000) [3, 3, 3, 3, 3] false 7777 =
        upsertA (toLE 6 5000) ⟨[3, 3, 3, 3, 3], 7777, false⟩
          (eraseA k ((List.range 4096).map
            (fun i => (toLE 6 i, (⟨[1, 1, 1, 1, 1], i, false⟩ : MACEntry))))) ∧
      (learn ((List.range 4096).map
          (fun i => (toLE 6 i, (⟨[1, 1, 1, 1, 1], i, false⟩ : MACEntry))))
          (toLE 6 5000) [3, 3, 3, 3, 3] false 7777).length = MACTableMaxSize :=
  have hfresh : lookupA (toLE 6 5000)
      ((List.range 4096).map
        (fun i => (toLE 6 i, (⟨[1, 1, 1, 1, 1], i, false⟩ : MACEntry)))) = none :=
    lookupA_map_idx_none (toLE 6) _ (List.range 4096) (toLE 6 5000)
      (fun i hi h => by
        have hik := toLE_inj (lt_trans (List.mem_range.mp hi) (by norm_num))
          (by norm_num) h
        have hlt := List.mem_range.mp hi
        omega)
  ⟨by rw [List.length_map, List.length_range]; rfl, hfresh,
    claim_C3_amended _ (toLE 6 5000) [3, 3, 3, 3, 3] false 7777
      (by rw [List.length_map, List.length_range]; rfl) hfresh⟩

/-- Counterexample to C3 as stated: in a full table whose unique oldest entry is
the local one, the next insert evicts that local entry (the strictly older
non-local entries survive) — eviction ignores the local flag. -/
theorem claim_C3_cex :
    lookupA (toLE 6 0)
      ((List.range 4096).map (fun i =>
        (toLE 6 i, (⟨(if i = 0 then zeroAddress else [1, 1, 1, 1, 1]), i, i == 0⟩
          : MACEntry)))) = some ⟨zeroAddress, 0, true⟩ ∧
    lookupA (toLE 6 0)
      (learn ((List.range 4096).map (fun i =>
          (toLE 6 i, (⟨(if i = 0 then zeroAddress else [1, 1, 1, 1, 1]), i, i == 0⟩
            : MACEntry))))
        (toLE 6 4096) [7, 7, 7, 7, 7] false 9999) = none ∧
    lookupA (toLE 6 1)
      (learn ((List.range 4096).map (fun i =>
          (toLE 6 i, (⟨(if i = 0 then zeroAddress else [1, 1, 1, 1, 1]), i, i == 0⟩
            : MACEntry))))
        (toLE 6 4096) [7, 7, 7, 7, 7] false 9999) = some ⟨[1, 1, 1, 1, 1], 1, false⟩ ∧
    lookupA (toLE 6 4096)
      (learn ((List.range 4096).map (fun i =>
          (toLE 6 i, (⟨(if i = 0 then zeroAddress else [1, 1, 1, 1, 1]), i, i == 0⟩
            : MACEntry))))
        (toLE 6 4096) [7, 7, 7, 7, 7] false 9999) = some ⟨[7, 7, 7, 7, 7], 9999, false⟩ := by
  have hbound : ∀ i : Nat, i < 4096 → i < 256 ^ 6 := fun i hi => lt_trans hi (by norm_num)
  have hinj : ∀ j : Nat, j < 4096 → ∀ i ∈ List.range 4096,
      toLE 6 i = toLE 6 j → i = j := fun j hj i hi h =>
    toLE_inj (hbound i (List.mem_range.mp hi)) (hbound j hj) h
  have hfresh : lookupA (toLE 6 4096)
      ((List.range 4096).map (fun i =>
        (toLE 6 i, (⟨(if i = 0 then zeroAddress else [1, 1, 1, 1, 1]), i, i == 0⟩
          : MACEntry)))) = none :=
    lookupA_map_idx_none (toLE 6) _ (List.range 4096) (toLE 6 4096)
      (fun i hi h => by
        have hik := toLE_inj (hbound i (List.mem_range.mp hi)) (by norm_num) h
        have hlt := List.mem_range.mp hi
        omega)
  obtain ⟨k, e, hr, hmem, hmin, hlearn, hsize⟩ :=
    learn_at_capacity ((List.range 4096).map (fun i =>
        (toLE 6 i, (⟨(if i = 0 then zeroAddress else [1, 1, 1, 1, 1]), i, i == 0⟩
          : MACEntry))))
      (toLE 6 4096) [7, 7, 7, 7, 7] false 9999
      (by rw [List.length_map, List.length_range]; rfl) hfresh
  obtain ⟨i, hi, hri⟩ := List.mem_map.mp hmem
  have hpair : toLE 6 i = k ∧
      (⟨(if i = 0 then zeroAddress else [1, 1, 1, 1, 1]), i, i == 0⟩ : MACEntry) = e :=
    (Prod.mk.injEq .. |>.mp hri)
  have hm0 : (toLE 6 0, (⟨zeroAddress, 0, true⟩ : MACEntry)) ∈
      (List.range 4096).map (fun i =>
        (toLE 6 i, (⟨(if i = 0 then zeroAddress else [1, 1, 1, 1, 1]), i, i == 0⟩
          : MACEntry))) :=
    List.mem_map.mpr ⟨0, List.mem_range.mpr (by norm_num), rfl⟩
  have hle0 : e.LastSeen ≤ 0 := hmin _ hm0
  have hei : e.LastSeen = i := by rw [← hpair.2]
  have hi0 : i = 0 := by omega
  subst hi0
  have hk0 : k = toLE 6 0 := hpair.1.symm
  subst hk0
  have hnd : (((List.range 4096).map (fun i =>
      (toLE 6 i, (⟨(if i = 0 then zeroAddress else [1, 1, 1, 1, 1]), i, i == 0⟩
        : MACEntry)))).map Prod.fst).Nodup := by
    rw [List.map_map]
    exact List.Nodup.map_on
      (fun i hi j hj h => hinj j (List.mem_range.mp hj) i hi h) (List.nodup_range 4096)
  refine ⟨?_, ?_, ?_, ?_⟩
  · exact lookupA_map_idx (toLE 6) _ (List.range 4096) 0
      (List.mem_range.mpr (by norm_num)) (fun i hi h => hinj 0 (by norm_num) i hi h)
  · rw [hlearn, lookupA_upsertA_ne _ _ _ _ (by decide),
      lookupA_eraseA_self _ _ hnd]
  · rw [hlearn, lookupA_upsertA_ne _ _ _ _ (by decide),
      lookupA_eraseA_ne _ _ _ (by decide)]
    exact lookupA_map_idx (toLE 6) _ (List.range 4096) 1
      (List.mem_range.mpr (by norm_num)) (fun i hi h => hinj 1 (by norm_num) i hi h)
  · rw [hlearn]
    exact lookupA_upsertA_self _ _ _

/-- C9: for an address already present in the peer table, `AddPeer` leaves the
stored record unchanged except for the endpoint, which is updated only when the
supplied endpoint is non-nil; in particular the stored public key is unchanged
even when a different public key is supplied, and other table entries are
untouched. -/
theorem claim_C9 (pm : PeerMgr) (addr pk2 : List Nat) (ep : Option (List Nat × Nat))
    (p : PeerRec) (h : lookupA addr pm = some p) :
    lookupA addr (AddPeer pm addr pk2 ep) =
      some { p with Endpoint := if ep.isSome then ep else p.Endpoint } ∧
    (∀ a, a ≠ addr → lookupA a (AddPeer pm addr pk2 ep) = lookupA a pm) := by
  constructor
  · unfold AddPeer
    rw [h]
    cases ep with
    | none => exact h
    | some e => exact lookupA_upsertA_self addr _ pm
  · intro a ha
    unfold AddPeer
    rw [h]
    cases ep with
    | none => rfl
    | some e => exact lookupA_upsertA_ne addr a _ pm ha

/-- Witness for C9: a peer registered with key `7…` keeps that key when
`AddPeer` is called again with key `8…` and a new endpoint. -/
theorem claim_C9_witness :
    lookupA [1, 2, 3, 4, 5]
      [([1, 2, 3, 4, 5], NewPeer [1, 2, 3, 4, 5] (List.replicate 32 7) none)] =
      some (NewPeer [1, 2, 3, 4, 5] (List.replicate 32 7) none) ∧
    (lookupA [1, 2, 3, 4, 5]
      (AddPeer [([1, 2, 3, 4, 5], NewPeer [1, 2, 3, 4, 5] (List.replicate 32 7) none)]
        [1, 2, 3, 4, 5] (List.replicate 32 8) (some ([9, 9, 9, 9], 1234))) =
      some { NewPeer [1, 2, 3, 4, 5] (List.replicate 32 7) none with
        Endpoint := if (some ([9, 9, 9, 9], 1234) : Option (List Nat × Nat)).isSome
          then some ([9, 9, 9, 9], 1234)
          else (NewPeer [1, 2, 3, 4, 5] (List.replicate 32 7) none).Endpoint } ∧
    (∀ a, a ≠ [1, 2, 3, 4, 5] →
      lookupA a
        (AddPeer [([1, 2, 3, 4, 5], NewPeer [1, 2, 3, 4, 5] (List.replicate 32 7) none)]
          [1, 2, 3, 4, 5] (List.replicate 32 8) (some ([9, 9, 9, 9], 1234))) =
      lookupA a [([1, 2, 3, 4, 5], NewPeer [1, 2, 3, 4, 5] (List.replicate 32 7) none)])) :=
  ⟨by decide,
    claim_C9 [([1, 2, 3, 4, 5], NewPeer [1, 2, 3, 4, 5] (List.replicate 32 7) none)]
      [1, 2, 3, 4, 5] (List.replicate 32 8) (some ([9, 9, 9, 9], 1234))
      (NewPeer [1, 2, 3, 4, 5] (List.replicate 32 7) none) (by decide)⟩

/-- C2 (amended): a hello whose 32-byte key derives the address of an existing
peer leaves the recorded public key unchanged and — when the peer is already
connected — its cipher unchanged, but it unconditionally rebinds the peer's
endpoint to the hello's source (and refreshes last-seen); no key comparison is
performed.  (The claim that the endpoint is also left unchanged fails; see the
counterexample.) -/
theorem claim_C2_amended (st : AgentSt) (payload : List Nat) (src : List Nat × Nat)
    (now : Nat) (p : PeerRec)
    (hlen : 32 ≤ payload.length)
    (hp : lookupA (AddressFromPublicKey (payload.take 32)) st.peers = some p)
    (hkne : p.PublicKey ≠ payload.take 32)
    (hconn : p.IsConnected = true) :
    (handleHandshake st payload src now).1.peers =
      upsertA (AddressFromPublicKey (payload.take 32))
        { p with Endpoint := some src, LastSeen := now } st.peers ∧
    lookupA (AddressFromPublicKey (payload.take 32))
        (handleHandshake st payload src now).1.peers =
      some { p with Endpoint := some src, LastSeen := now } ∧
    (handleHandshake st payload src now).2 = [] := by
  have hconn1 : ({ p with Endpoint := some src, LastSeen := now } : PeerRec).IsConnected
      = true := hconn
  simp only [handleHandshake]
  rw [if_neg (by omega), hp]
  simp only [hconn1, if_true, reduceIte]
  exact ⟨trivial, lookupA_upsertA_self _ _ _, trivial⟩

/-- Witness for the amended C2: a connected peer record whose stored key is
`1…` (the table address being derived from the key `0…`) has its endpoint
rebound by a hello carrying `0…` from a new source. -/
theorem claim_C2_witness :
    32 ≤ (List.replicate 32 0).length ∧
    lookupA (AddressFromPublicKey ((List.replicate 32 0).take 32))
      [(AddressFromPublicKey (List.replicate 32 0),
        (⟨AddressFromPublicKey (List.replicate 32 0), List.replicate 32 1,
          PeerState.connected, some ([1, 2, 3, 4], 9993),
          some (NewNoiseCipher (List.replicate 32 9) (List.replicate 32 9)), 0⟩ : PeerRec))] =
      some ⟨AddressFromPublicKey (List.replicate 32 0), List.replicate 32 1,
        PeerState.connected, some ([1, 2, 3, 4], 9993),
        some (NewNoiseCipher (List.replicate 32 9) (List.replicate 32 9)), 0⟩ ∧
    lookupA (AddressFromPublicKey ((List.replicate 32 0).take 32))
      (handleHandshake
        ⟨[(AddressFromPublicKey (List.replicate 32 0),
          ⟨AddressFromPublicKey (List.replicate 32 0), List.replicate 32 1,
            PeerState.connected, some ([1, 2, 3, 4], 9993),
            some (NewNoiseCipher (List.replicate 32 9) (List.replicate 32 9)), 0⟩)],
          List.replicate 32 0, List.replicate 32 7⟩
        (List.replicate 32 0) ([5, 6, 7, 8], 1111) 42).1.peers =
      some { (⟨AddressFromPublicKey (List.replicate 32 0), List.replicate 32 1,
          PeerState.connected, some ([1, 2, 3, 4], 9993),
          some (NewNoiseCipher (List.replicate 32 9) (List.replicate 32 9)), 0⟩ : PeerRec) with
        Endpoint := some ([5, 6, 7, 8], 1111), LastSeen := 42 } := by
  refine ⟨by decide, by decide, ?_⟩
  exact (claim_C2_amended
    ⟨[(AddressFromPublicKey (List.replicate 32 0),
      ⟨AddressFromPublicKey (List.replicate 32 0), List.replicate 32 1,
        PeerState.connected, some ([1, 2, 3, 4], 9993),
        some (NewNoiseCipher (List.replicate 32 9) (List.replicate 32 9)), 0⟩)],
      List.replicate 32 0, List.replicate 32 7⟩
    (List.replicate 32 0) ([5, 6, 7, 8], 1111) 42
    ⟨AddressFromPublicKey (List.replicate 32 0), List.replicate 32 1,
      PeerState.connected, some ([1, 2, 3, 4], 9993),
      some (NewNoiseCipher (List.replicate 32 9) (List.replicate 32 9)), 0⟩
    (by decide) (by decide) (by decide) (by decide)).2.1

/-- Counterexample to C2 as stated: with a connected peer recorded under the
address derived from key `0…` but holding public key `1…`, a hello carrying
`0…` from a different source address replaces the peer's endpoint. -/
theorem claim_C2_cex :
    ((⟨AddressFromPublicKey (List.replicate 32 0), List.replicate 32 1,
        PeerState.connected, some ([1, 2, 3, 4], 9993),
        some (NewNoiseCipher (List.replicate 32 9) (List.replicate 32 9)), 0⟩ : PeerRec).PublicKey
      ≠ List.replicate 32 0) ∧
    lookupA (AddressFromPublicKey (List.replicate 32 0))
      (handleHandshake
        ⟨[(AddressFromPublicKey (List.replicate 32 0),
          ⟨AddressFromPublicKey (List.replicate 32 0), List.replicate 32 1,
            PeerState.connected, some ([1, 2, 3, 4], 9993),
            some (NewNoiseCipher (List.replicate 32 9) (List.replicate 32 9)), 0⟩)],
          List.replicate 32 0, List.replicate 32 7⟩
        (List.replicate 32 0) ([5, 6, 7, 8], 1111) 42).1.peers =
      some ⟨AddressFromPublicKey (List.replicate 32 0), List.replicate 32 1,
        PeerState.connected, some ([5, 6, 7, 8], 1111),
        some (NewNoiseCipher (List.replicate 32 9) (List.replicate 32 9)), 42⟩ ∧
    (some (([5, 6, 7, 8], 1111) : List Nat × Nat) ≠ some (([1, 2, 3, 4], 9993) : List Nat × Nat)) := by
  decide

/-- C8 (amended): for a well-formed ARP request (hardware 1, protocol 0x0800,
hlen 6, plen 4) whose target IP has a fresh cache entry, provided additionally
that the request's sender IP differs from its target IP and the cache is below
its 1,024-entry capacity, `HandleARP` returns a synthetic reply whose Ethernet
destination is the requester's MAC, Ethernet source the cached MAC, ethertype
0x0806, ARP operation 2, ARP sender fields the cached MAC and target IP, and
ARP target fields the requester's MAC and IP.  (The unamended claim fails on
the excluded inputs: the handler learns the request's sender mapping before the
cache lookup, so a gratuitous request — sender IP equal to target IP — is
answered with the requester's just-learned MAC instead of the previously cached
MAC, and at capacity that learn's eviction can remove the fresh entry; see the
counterexample.) -/
theorem claim_C8 (cache : ARPCache) (p : List Nat) (now : Nat) (e : ARPEntry)
    (hlen : 28 ≤ p.length)
    (hht : arpHType p = 1) (hpt : arpPType p = 0x0800)
    (hhl : arpHLen p = 6) (hpl : arpPLen p = 4)
    (hop : arpOper p = ARPRequest)
    (hne : arpSenderIP p ≠ arpTargetIP p)
    (hcap : cache.length < ARPCacheMaxSize)
    (hhit : lookupA (arpTargetIP p) cache = some e)
    (hfresh : now - e.LastSeen < ARPCacheExpiry)
    (hmac : e.MAC.length = 6) :
    ∃ r, (HandleARP cache p now).2 = some r ∧
      r.take 6 = arpSenderMAC p ∧
      (r.drop 6).take 6 = e.MAC ∧
      (r.drop 12).take 2 = [8, 6] ∧
      arpHType (r.drop 14) = 1 ∧ arpPType (r.drop 14) = 0x0800 ∧
      arpOper (r.drop 14) = 2 ∧
      arpSenderMAC (r.drop 14) = e.MAC ∧
      arpSenderIP (r.drop 14) = arpTargetIP p ∧
      ((r.drop 14).drop 18).take 6 = arpSenderMAC p ∧
      arpTargetIP (r.drop 14) = arpSenderIP p := by
  have hsm6 : (arpSenderMAC p).length = 6 := by
    simp only [arpSenderMAC, List.length_take, List.length_drop]
    omega
  have hsip4 : (arpSenderIP p).length = 4 := by
    simp only [arpSenderIP, List.length_take, List.length_drop]
    omega
  have htip4 : (arpTargetIP p).length = 4 := by
    simp only [arpTargetIP, List.length_take, List.length_drop]
    omega
  have hc1 : lookupA (arpTargetIP p)
      (arpLearn cache (arpSenderIP p) (arpSenderMAC p) now) = some e := by
    unfold arpLearn
    rw [if_neg (by simp only [ARPCacheMaxSize] at hcap ⊢; omega),
      lookupA_upsertA_ne _ _ _ _ (Ne.symm hne)]
    exact hhit
  have hhandle : (HandleARP cache p now).2 =
      some (buildARPReply e.MAC (arpSenderMAC p) (arpSenderIP p) (arpTargetIP p)) := by
    unfold HandleARP
    rw [if_neg (by simp only [ARPHeaderSize]; omega),
      if_neg (by push_neg; exact ⟨hht, hpt, hhl, hpl⟩)]
    simp only [hop, ARPRequest, if_true, reduceIte, hc1, hfresh]
  have hr : buildARPReply e.MAC (arpSenderMAC p) (arpSenderIP p) (arpTargetIP p) =
      fix 6 (arpSenderMAC p) ++ (fix 6 e.MAC ++
        (8 :: 6 :: 0 :: 1 :: 8 :: 0 :: 6 :: 4 :: 0 :: 2 ::
          (fix 6 e.MAC ++ (fix 4 (arpTargetIP p) ++
            (fix 6 (arpSenderMAC p) ++ fix 4 (arpSenderIP p)))))) := by
    simp [buildARPReply, List.append_assoc]
  have hd6 : (buildARPReply e.MAC (arpSenderMAC p) (arpSenderIP p)
      (arpTargetIP p)).drop 6 = fix 6 e.MAC ++
      (8 :: 6 :: 0 :: 1 :: 8 :: 0 :: 6 :: 4 :: 0 :: 2 ::
        (fix 6 e.MAC ++ (fix 4 (arpTargetIP p) ++
          (fix 6 (arpSenderMAC p) ++ fix 4 (arpSenderIP p))))) := by
    rw [hr, List.drop_left' (fix_length 6 (arpSenderMAC p))]
  have hd12 : (buildARPReply e.MAC (arpSenderMAC p) (arpSenderIP p)
      (arpTargetIP p)).drop 12 =
      8 :: 6 :: 0 :: 1 :: 8 :: 0 :: 6 :: 4 :: 0 :: 2 ::
        (fix 6 e.MAC ++ (fix 4 (arpTargetIP p) ++
          (fix 6 (arpSenderMAC p) ++ fix 4 (arpSenderIP p)))) := by
    show (buildARPReply e.MAC (arpSenderMAC p) (arpSenderIP p)
      (arpTargetIP p)).drop (6 + 6) = _
    rw [← List.drop_drop, hd6, List.drop_left' (fix_length 6 e.MAC)]
  have hd14 : (buildARPReply e.MAC (arpSenderMAC p) (arpSenderIP p)
      (arpTargetIP p)).drop 14 =
      0 :: 1 :: 8 :: 0 :: 6 :: 4 :: 0 :: 2 ::
        (fix 6 e.MAC ++ (fix 4 (arpTargetIP p) ++
          (fix 6 (arpSenderMAC p) ++ fix 4 (arpSenderIP p)))) := by
    show (buildARPReply e.MAC (arpSenderMAC p) (arpSenderIP p)
      (arpTargetIP p)).drop (12 + 2) = _
    rw [← List.drop_drop, hd12]
    rfl
  have hd14_8 : ((buildARPReply e.MAC (arpSenderMAC p) (arpSenderIP p)
      (arpTargetIP p)).drop 14).drop 8 =
      fix 6 e.MAC ++ (fix 4 (arpTargetIP p) ++
        (fix 6 (arpSenderMAC p) ++ fix 4 (arpSenderIP p))) := by
    rw [hd14]
    rfl
  have hd14_14 : ((buildARPReply e.MAC (arpSenderMAC p) (arpSenderIP p)
      (arpTargetIP p)).drop 14).drop 14 =
      fix 4 (arpTargetIP p) ++ (fix 6 (arpSenderMAC p) ++ fix 4 (arpSenderIP p)) := by
    show ((buildARPReply e.MAC (arpSenderMAC p) (arpSenderIP p)
      (arpTargetIP p)).drop 14).drop (8 + 6) = _
    rw [← List.drop_drop, hd14_8, List.drop_left' (fix_length 6 e.MAC)]
  have hd14_18 : ((buildARPReply e.MAC (arpSenderMAC p) (arpSenderIP p)
      (arpTargetIP p)).drop 14).drop 18 =
      fix 6 (arpSenderMAC p) ++ fix 4 (arpSenderIP p) := by
    show ((buildARPReply e.MAC (arpSenderMAC p) (arpSenderIP p)
      (arpTargetIP p)).drop 14).drop (14 + 4) = _
    rw [← List.drop_drop, hd14_14, List.drop_left' (fix_length 4 (arpTargetIP p))]
  have hd14_24 : ((buildARPReply e.MAC (arpSenderMAC p) (arpSenderIP p)
      (arpTargetIP p)).drop 14).drop 24 = fix 4 (arpSenderIP p) := by
    show ((buildARPReply e.MAC (arpSenderMAC p) (arpSenderIP p)
      (arpTargetIP p)).drop 14).drop (18 + 6) = _
    rw [← List.drop_drop, hd14_18, List.drop_left' (fix_length 6 (arpSenderMAC p))]
  have c1 : (buildARPReply e.MAC (arpSenderMAC p) (arpSenderIP p)
      (arpTargetIP p)).take 6 = arpSenderMAC p := by
    rw [hr, List.take_left' (fix_length 6 (arpSenderMAC p)), fix_of_length hsm6]
  have c2 : ((buildARPReply e.MAC (arpSenderMAC p) (arpSenderIP p)
      (arpTargetIP p)).drop 6).take 6 = e.MAC := by
    rw [hd6, List.take_left' (fix_length 6 e.MAC), fix_of_length hmac]
  have c3 : ((buildARPReply e.MAC (arpSenderMAC p) (arpSenderIP p)
      (arpTargetIP p)).drop 12).take 2 = [8, 6] := by
    rw [hd12]
    rfl
  have c4 : arpHType ((buildARPReply e.MAC (arpSenderMAC p) (arpSenderIP p)
      (arpTargetIP p)).drop 14) = 1 := by
    unfold arpHType
    rw [hd14]
    rfl
  have c5 : arpPType ((buildARPReply e.MAC (arpSenderMAC p) (arpSenderIP p)
      (arpTargetIP p)).drop 14) = 0x0800 := by
    unfold arpPType
    rw [hd14]
    rfl
  have c6 : arpOper ((buildARPReply e.MAC (arpSenderMAC p) (arpSenderIP p)
      (arpTargetIP p)).drop 14) = 2 := by
    unfold arpOper
    rw [hd14]
    rfl
  have c7 : arpSenderMAC ((buildARPReply e.MAC (arpSenderMAC p) (arpSenderIP p)
      (arpTargetIP p)).drop 14) = e.MAC := by
    show ((((buildARPReply e.MAC (arpSenderMAC p) (arpSenderIP p)
      (arpTargetIP p)).drop 14).drop 8).take 6) = e.MAC
    rw [hd14_8, List.take_left' (fix_length 6 e.MAC), fix_of_length hmac]
  have c8 : arpSenderIP ((buildARPReply e.MAC (arpSenderMAC p) (arpSenderIP p)
      (arpTargetIP p)).drop 14) = arpTargetIP p := by
    show ((((buildARPReply e.MAC (arpSenderMAC p) (arpSenderIP p)
      (arpTargetIP p)).drop 14).drop 14).take 4) = arpTargetIP p
    rw [hd14_14, List.take_left' (fix_length 4 (arpTargetIP p)), fix_of_length htip4]
  have c9 : (((buildARPReply e.MAC (arpSenderMAC p) (arpSenderIP p)
      (arpTargetIP p)).drop 14).drop 18).take 6 = arpSenderMAC p := by
    rw [hd14_18, List.take_left' (fix_length 6 (arpSenderMAC p)), fix_of_length hsm6]
  have c10 : arpTargetIP ((buildARPReply e.MAC (arpSenderMAC p) (arpSenderIP p)
      (arpTargetIP p)).drop 14) = arpSenderIP p := by
    show ((((buildARPReply e.MAC (arpSenderMAC p) (arpSenderIP p)
      (arpTargetIP p)).drop 14).drop 24).take 4) = arpSenderIP p
    rw [hd14_24, fix_of_length hsip4, List.take_of_length_le hsip4.le]
  exact ⟨buildARPReply e.MAC (arpSenderMAC p) (arpSenderIP p) (arpTargetIP p),
    hhandle, c1, c2, c3, c4, c5, c6, c7, c8, c9, c10⟩


/-- Witness for C8 on a concrete request and cache. -/
theorem claim_C8_witness :
    arpOper [0, 1, 8, 0, 6, 4, 0, 1, 161, 162, 163, 164, 165, 166,
      10, 0, 0, 1, 0, 0, 0, 0, 0, 0, 10, 0, 0, 2] = ARPRequest ∧
    lookupA (arpTargetIP [0, 1, 8, 0, 6, 4, 0, 1, 161, 162, 163, 164, 165, 166,
        10, 0, 0, 1, 0, 0, 0, 0, 0, 0, 10, 0, 0, 2])
      [([10, 0, 0, 2], (⟨[190, 191, 192, 193, 194, 195], 0⟩ : ARPEntry))] =
      some ⟨[190, 191, 192, 193, 194, 195], 0⟩ ∧
    ∃ r, (HandleARP [([10, 0, 0, 2], ⟨[190, 191, 192, 193, 194, 195], 0⟩)]
        [0, 1, 8, 0, 6, 4, 0, 1, 161, 162, 163, 164, 165, 166,
          10, 0, 0, 1, 0, 0, 0, 0, 0, 0, 10, 0, 0, 2] 5).2 = some r ∧
      r.take 6 = arpSenderMAC [0, 1, 8, 0, 6, 4, 0, 1, 161, 162, 163, 164, 165, 166,
        10, 0, 0, 1, 0, 0, 0, 0, 0, 0, 10, 0, 0, 2] ∧
      (r.drop 6).take 6 = (⟨[190, 191, 192, 193, 194, 195], 0⟩ : ARPEntry).MAC ∧
      (r.drop 12).take 2 = [8, 6] ∧
      arpHType (r.drop 14) = 1 ∧ arpPType (r.drop 14) = 0x0800 ∧
      arpOper (r.drop 14) = 2 ∧
      arpSenderMAC (r.drop 14) = (⟨[190, 191, 192, 193, 194, 195], 0⟩ : ARPEntry).MAC ∧
      arpSenderIP (r.drop 14) = arpTargetIP [0, 1, 8, 0, 6, 4, 0, 1,
        161, 162, 163, 164, 165, 166, 10, 0, 0, 1, 0, 0, 0, 0, 0, 0, 10, 0, 0, 2] ∧
      ((r.drop 14).drop 18).take 6 = arpSenderMAC [0, 1, 8, 0, 6, 4, 0, 1,
        161, 162, 163, 164, 165, 166, 10, 0, 0, 1, 0, 0, 0, 0, 0, 0, 10, 0, 0, 2] ∧
      arpTargetIP (r.drop 14) = arpSenderIP [0, 1, 8, 0, 6, 4, 0, 1,
        161, 162, 163, 164, 165, 166, 10, 0, 0, 1, 0, 0, 0, 0, 0, 0, 10, 0, 0, 2] :=
  ⟨by decide, by decide,
    claim_C8 [([10, 0, 0, 2], ⟨[190, 191, 192, 193, 194, 195], 0⟩)]
      [0, 1, 8, 0, 6, 4, 0, 1, 161, 162, 163, 164, 165, 166,
        10, 0, 0, 1, 0, 0, 0, 0, 0, 0, 10, 0, 0, 2] 5
      ⟨[190, 191, 192, 193, 194, 195], 0⟩
      (by decide) (by decide) (by decide) (by decide) (by decide) (by decide)
      (by decide) (by decide) (by decide) (by decide) (by decide)⟩

/-- Counterexample to C8 as stated: a gratuitous-style request (sender IP equal
to target IP) meets every condition of the claim — hardware 1, protocol 0x0800,
hlen 6, plen 4, operation 1, target IP `10.0.0.9` cached fresh as MAC
`be:bf:c0:c1:c2:c3` — yet the reply's Ethernet source MAC (and ARP sender MAC)
is the requester's MAC `01:02:03:04:05:06`, not the cached target MAC: the
handler's sender-learn overwrites the queried entry before the lookup. -/
theorem claim_C8_cex :
    arpHType [0, 1, 8, 0, 6, 4, 0, 1, 1, 2, 3, 4, 5, 6,
      10, 0, 0, 9, 0, 0, 0, 0, 0, 0, 10, 0, 0, 9] = 1 ∧
    arpPType [0, 1, 8, 0, 6, 4, 0, 1, 1, 2, 3, 4, 5, 6,
      10, 0, 0, 9, 0, 0, 0, 0, 0, 0, 10, 0, 0, 9] = 0x0800 ∧
    arpHLen [0, 1, 8, 0, 6, 4, 0, 1, 1, 2, 3, 4, 5, 6,
      10, 0, 0, 9, 0, 0, 0, 0, 0, 0, 10, 0, 0, 9] = 6 ∧
    arpPLen [0, 1, 8, 0, 6, 4, 0, 1, 1, 2, 3, 4, 5, 6,
      10, 0, 0, 9, 0, 0, 0, 0, 0, 0, 10, 0, 0, 9] = 4 ∧
    arpOper [0, 1, 8, 0, 6, 4, 0, 1, 1, 2, 3, 4, 5, 6,
      10, 0, 0, 9, 0, 0, 0, 0, 0, 0, 10, 0, 0, 9] = ARPRequest ∧
    arpTargetIP [0, 1, 8, 0, 6, 4, 0, 1, 1, 2, 3, 4, 5, 6,
      10, 0, 0, 9, 0, 0, 0, 0, 0, 0, 10, 0, 0, 9] = [10, 0, 0, 9] ∧
    lookupA [10, 0, 0, 9]
      [([10, 0, 0, 9], (⟨[190, 191, 192, 193, 194, 195], 0⟩ : ARPEntry))] =
      some ⟨[190, 191, 192, 193, 194, 195], 0⟩ ∧
    ((5 : Nat) - 0 < ARPCacheExpiry) ∧
    (HandleARP [([10, 0, 0, 9], ⟨[190, 191, 192, 193, 194, 195], 0⟩)]
      [0, 1, 8, 0, 6, 4, 0, 1, 1, 2, 3, 4, 5, 6,
        10, 0, 0, 9, 0, 0, 0, 0, 0, 0, 10, 0, 0, 9] 5).2.isSome = true ∧
    ((((HandleARP [([10, 0, 0, 9], ⟨[190, 191, 192, 193, 194, 195], 0⟩)]
      [0, 1, 8, 0, 6, 4, 0, 1, 1, 2, 3, 4, 5, 6,
        10, 0, 0, 9, 0, 0, 0, 0, 0, 0, 10, 0, 0, 9] 5).2.getD []).drop 6).take 6 =
      [1, 2, 3, 4, 5, 6]) ∧
    (([1, 2, 3, 4, 5, 6] : List Nat) ≠ [190, 191, 192, 193, 194, 195]) := by
  decide

end ZeroGo
